import Mathlib

/-!
Shallow embedding of the boids simulation (`src/main.go`).

Go `float64` scalars are modelled by `Flt := Option ℝ`: `some r` is a finite
value and `none` stands for a non-finite value (NaN or ±Inf).  Arithmetic
propagates non-finiteness, division by zero yields a non-finite result, the
square root of a negative number yields a non-finite result, and every
comparison involving a non-finite value is false — IEEE NaN comparison
semantics.  Go's mutating vector/struct methods are embedded as pure
functions returning the updated value.

The quadtree stores `*MovementComponent` pointers into the single agents
array; the embedding stores the agent's array index and looks the component
up in the current array state (`A : Nat → MovementComponent`), which mirrors
pointer dereference at read time.  Go's `Divided bool` flag and its four
nilable child pointers are always set together (`Subdivide` creates all four
children and sets the flag; `Clear` removes all four and resets it), so the
embedding uses two constructors: `leaf` (Divided = false, no children) and
`node` (Divided = true, four children).
-/

noncomputable section

open Classical

/-- A Go `float64` value: `some r` is finite, `none` is non-finite (NaN/±Inf). -/
abbrev Flt : Type := Option ℝ

/-- IEEE-style addition on `Flt`. -/
def Flt.add : Flt → Flt → Flt
  | some a, some b => some (a + b)
  | _, _ => none

/-- IEEE-style subtraction on `Flt`. -/
def Flt.sub : Flt → Flt → Flt
  | some a, some b => some (a - b)
  | _, _ => none

/-- IEEE-style multiplication on `Flt`. -/
def Flt.mul : Flt → Flt → Flt
  | some a, some b => some (a * b)
  | _, _ => none

/-- IEEE-style division on `Flt`; dividing by zero is non-finite. -/
def Flt.div : Flt → Flt → Flt
  | some a, some b => if b = 0 then none else some (a / b)
  | _, _ => none

/-- IEEE-style square root on `Flt`; the root of a negative number is NaN. -/
def Flt.sqrt : Flt → Flt
  | some a => if a < 0 then none else some (Real.sqrt a)
  | none => none

/-- Strict comparison: false whenever either side is non-finite (IEEE NaN). -/
def Flt.lt : Flt → Flt → Prop
  | some a, some b => a < b
  | _, _ => False

/-- Non-strict comparison: false whenever either side is non-finite (IEEE NaN). -/
def Flt.le : Flt → Flt → Prop
  | some a, some b => a ≤ b
  | _, _ => False

/-- 2D vector of `float64` components (`vector.Vector2D`). -/
structure Vector2D where
  X : Flt
  Y : Flt
deriving DecidableEq

/-- Modelled from the spec: the `boids/vector` package is not part of the
provided sources; §4.1 specifies `add` as componentwise addition. -/
def Vector2D.Add (v w : Vector2D) : Vector2D := ⟨v.X.add w.X, v.Y.add w.Y⟩

/-- Modelled from the spec: `subtract` is componentwise subtraction (§4.1). -/
def Vector2D.Subtract (v w : Vector2D) : Vector2D := ⟨v.X.sub w.X, v.Y.sub w.Y⟩

/-- Modelled from the spec: `scale(k)` multiplies both components by `k`
(§4.1); `main.go` calls it `Multiply`. -/
def Vector2D.Multiply (v : Vector2D) (k : Flt) : Vector2D := ⟨v.X.mul k, v.Y.mul k⟩

/-- Modelled from the spec: `divide(k)` divides both components by `k`,
undefined (non-finite) for `k = 0` (§4.1). -/
def Vector2D.Divide (v : Vector2D) (k : Flt) : Vector2D := ⟨v.X.div k, v.Y.div k⟩

/-- Modelled from the spec: `magnitude` is the Euclidean norm (§4.1). -/
def Vector2D.Magnitude (v : Vector2D) : Flt := ((v.X.mul v.X).add (v.Y.mul v.Y)).sqrt

/-- Modelled from the spec: `setMagnitude(m)` normalizes then scales to `m`,
undefined (non-finite) for zero-length input (§4.1). -/
def Vector2D.SetMagnitude (v : Vector2D) (m : Flt) : Vector2D :=
  (v.Divide v.Magnitude).Multiply m

/-- Modelled from the spec: `limit(max)` scales down to magnitude `max` only
if the magnitude exceeds `max`, otherwise a no-op (§4.1). -/
def Vector2D.Limit (v : Vector2D) (max : Flt) : Vector2D :=
  if Flt.lt max v.Magnitude then v.SetMagnitude max else v

/-- Modelled from the spec: `distance(other)` is the Euclidean distance (§4.1). -/
def Vector2D.Distance (v w : Vector2D) : Flt := (v.Subtract w).Magnitude

/-- Per-agent state (`MovementComponent` in `main.go`). -/
structure MovementComponent where
  Position : Vector2D
  Velocity : Vector2D
  Acceleration : Vector2D
deriving DecidableEq

/-- Axis-aligned rectangle given by center and full width/height (`main.go`). -/
structure Rectangle where
  Center : Vector2D
  Width : Flt
  Height : Flt
deriving DecidableEq

/-- `Rectangle.Contains` from `main.go` (lines 43–48): closed-interval test
against `Center ± Width/2`, `Center ± Height/2`. -/
def Rectangle.Contains (r : Rectangle) (point : Vector2D) : Prop :=
  Flt.le (r.Center.X.sub (r.Width.div (some 2))) point.X ∧
  Flt.le point.X (r.Center.X.add (r.Width.div (some 2))) ∧
  Flt.le (r.Center.Y.sub (r.Height.div (some 2))) point.Y ∧
  Flt.le point.Y (r.Center.Y.add (r.Height.div (some 2)))

/-- `Rectangle.Intersects` from `main.go` (lines 50–55): negation of the four
separating comparisons (Go `a > b` is `Flt.lt b a`). -/
def Rectangle.Intersects (r : Rectangle) (rangeRec : Rectangle) : Prop :=
  ¬ (Flt.lt (r.Center.X.add (r.Width.div (some 2)))
        (rangeRec.Center.X.sub (rangeRec.Width.div (some 2))) ∨
     Flt.lt (rangeRec.Center.X.add (rangeRec.Width.div (some 2)))
        (r.Center.X.sub (r.Width.div (some 2))) ∨
     Flt.lt (r.Center.Y.add (r.Height.div (some 2)))
        (rangeRec.Center.Y.sub (rangeRec.Height.div (some 2))) ∨
     Flt.lt (rangeRec.Center.Y.add (rangeRec.Height.div (some 2)))
        (r.Center.Y.sub (r.Height.div (some 2))))

/-- `const capacity = 16` from `main.go`. -/
def capacity : Nat := 16

/-- Quadtree (`main.go`): `leaf` is an undivided node, `node` a divided one
with NW, NE, SW, SE children.  Buckets hold agent indices (Go holds
`*MovementComponent` pointers into the agents array). -/
inductive Quadtree where
  | leaf (Boundary : Rectangle) (Components : List Nat)
  | node (Boundary : Rectangle) (Components : List Nat) (NW NE SW SE : Quadtree)
deriving DecidableEq

/-- The node's boundary rectangle. -/
def Quadtree.Boundary : Quadtree → Rectangle
  | .leaf b _ => b
  | .node b _ _ _ _ _ => b

/-- The node's own bucket. -/
def Quadtree.Components : Quadtree → List Nat
  | .leaf _ c => c
  | .node _ c _ _ _ _ => c

/-- Child boundaries created by `Quadtree.Subdivide` (`main.go` lines 111–119),
in NW, NE, SW, SE order: each has half the parent's width and height, centered
at the parent's center offset by a quarter width/height. -/
def Quadtree.Subdivide (b : Rectangle) : Rectangle × Rectangle × Rectangle × Rectangle :=
  let x := b.Center.X
  let y := b.Center.Y
  let w := b.Width.div (some 2)
  let h := b.Height.div (some 2)
  (⟨⟨x.sub (w.div (some 2)), y.sub (h.div (some 2))⟩, w, h⟩,
   ⟨⟨x.add (w.div (some 2)), y.sub (h.div (some 2))⟩, w, h⟩,
   ⟨⟨x.sub (w.div (some 2)), y.add (h.div (some 2))⟩, w, h⟩,
   ⟨⟨x.add (w.div (some 2)), y.add (h.div (some 2))⟩, w, h⟩)

/-- `Insert` applied to a freshly subdivided (empty) child with boundary `qb`:
the bucket has room (`0 < capacity`), so the call reduces to the containment
test and a one-element append.  `insertNew_eq_Insert` below proves this equal
to `Quadtree.Insert` on the empty leaf. -/
def insertNew (p : Vector2D) (i : Nat) (qb : Rectangle) : Quadtree × Bool :=
  if qb.Contains p then (.leaf qb [i], true) else (.leaf qb [], false)

/-- `Quadtree.Insert` from `main.go` (lines 121–136): reject positions outside
the boundary; append to the bucket while it has room; otherwise subdivide (if
not yet divided) and try NW, NE, SW, SE in order, short-circuiting on the
first success.  Returns the updated tree and Go's boolean result. -/
def Quadtree.Insert (A : Nat → MovementComponent) (i : Nat) : Quadtree → Quadtree × Bool
  | .leaf b comps =>
      if ¬ b.Contains (A i).Position then (.leaf b comps, false)
      else if comps.length < capacity then (.leaf b (comps ++ [i]), true)
      else
        let q := Quadtree.Subdivide b
        let rNW := insertNew (A i).Position i q.1
        if rNW.2 then (.node b comps rNW.1 (.leaf q.2.1 []) (.leaf q.2.2.1 []) (.leaf q.2.2.2 []), true)
        else
          let rNE := insertNew (A i).Position i q.2.1
          if rNE.2 then (.node b comps rNW.1 rNE.1 (.leaf q.2.2.1 []) (.leaf q.2.2.2 []), true)
          else
            let rSW := insertNew (A i).Position i q.2.2.1
            if rSW.2 then (.node b comps rNW.1 rNE.1 rSW.1 (.leaf q.2.2.2 []), true)
            else
              let rSE := insertNew (A i).Position i q.2.2.2
              (.node b comps rNW.1 rNE.1 rSW.1 rSE.1, rSE.2)
  | .node b comps nw ne sw se =>
      if ¬ b.Contains (A i).Position then (.node b comps nw ne sw se, false)
      else if comps.length < capacity then (.node b (comps ++ [i]) nw ne sw se, true)
      else
        let rNW := nw.Insert A i
        if rNW.2 then (.node b comps rNW.1 ne sw se, true)
        else
          let rNE := ne.Insert A i
          if rNE.2 then (.node b comps rNW.1 rNE.1 sw se, true)
          else
            let rSW := sw.Insert A i
            if rSW.2 then (.node b comps rNW.1 rNE.1 rSW.1 se, true)
            else
              let rSE := se.Insert A i
              (.node b comps rNW.1 rNE.1 rSW.1 rSE.1, rSE.2)

/-- `Quadtree.Query` from `main.go` (lines 138–157): prune when the node
boundary misses the query rectangle, collect bucket entries whose current
position lies in the rectangle, then recurse NW, NE, SW, SE when divided,
appending to the accumulator `found`. -/
def Quadtree.Query (A : Nat → MovementComponent) (rangeRec : Rectangle)
    (found : List Nat) : Quadtree → List Nat
  | .leaf b comps =>
      if ¬ b.Intersects rangeRec then found
      else found ++ comps.filter (fun j => decide (rangeRec.Contains (A j).Position))
  | .node b comps nw ne sw se =>
      if ¬ b.Intersects rangeRec then found
      else
        let f0 := found ++ comps.filter (fun j => decide (rangeRec.Contains (A j).Position))
        let f1 := Quadtree.Query A rangeRec f0 nw
        let f2 := Quadtree.Query A rangeRec f1 ne
        let f3 := Quadtree.Query A rangeRec f2 sw
        Quadtree.Query A rangeRec f3 se

/-- All agent indices stored anywhere in the tree, in bucket-then-children
(NW, NE, SW, SE) order. -/
def Quadtree.elems : Quadtree → List Nat
  | .leaf _ c => c
  | .node _ c nw ne sw se => c ++ (nw.elems ++ (ne.elems ++ (sw.elems ++ se.elems)))

/-- The per-tick index build from `run` (`main.go` lines 400–404): fold
`Insert` over the agent indices starting from a fresh root (`NewQuadtree`
yields a node with an empty bucket), ignoring the returned boolean. -/
def buildQuadtree (boundary : Rectangle) (A : Nat → MovementComponent)
    (L : List Nat) : Quadtree :=
  L.foldl (fun t i => (t.Insert A i).1) (.leaf boundary [])

/-- Geometric well-formedness: every divided node's children carry exactly
the four quadrant boundaries `Subdivide` creates.  `Subdivide` is the only
code path that creates children, so every tree reachable from a fresh root
satisfies this. -/
def Quadtree.geomWF : Quadtree → Prop
  | .leaf _ _ => True
  | .node b _ nw ne sw se =>
      (nw.Boundary = (Quadtree.Subdivide b).1 ∧
       ne.Boundary = (Quadtree.Subdivide b).2.1 ∧
       sw.Boundary = (Quadtree.Subdivide b).2.2.1 ∧
       se.Boundary = (Quadtree.Subdivide b).2.2.2) ∧
      nw.geomWF ∧ ne.geomWF ∧ sw.geomWF ∧ se.geomWF

/-- Every node's bucket holds at most `capacity` entries. -/
def Quadtree.bucketsLE : Quadtree → Prop
  | .leaf _ c => c.length ≤ capacity
  | .node _ c nw ne sw se =>
      c.length ≤ capacity ∧ nw.bucketsLE ∧ ne.bucketsLE ∧ sw.bucketsLE ∧ se.bucketsLE

/-- Entry well-formedness: every entry stored anywhere in a subtree has its
position inside that subtree's root boundary (established by `Insert`'s
containment guard). -/
def Quadtree.entriesWF (A : Nat → MovementComponent) : Quadtree → Prop
  | .leaf b c => ∀ j ∈ c, b.Contains (A j).Position
  | .node b c nw ne sw se =>
      (∀ j ∈ Quadtree.elems (.node b c nw ne sw se), b.Contains (A j).Position) ∧
      entriesWF A nw ∧ entriesWF A ne ∧ entriesWF A sw ∧ entriesWF A se

/-- Height of the tree: the number of levels of recursion `Insert` can
descend through. -/
def Quadtree.depth : Quadtree → Nat
  | .leaf _ _ => 0
  | .node _ _ nw ne sw se => 1 + max (max nw.depth ne.depth) (max sw.depth se.depth)

/-- `Quadtree.Insert` instrumented with explicit fuel: each recursive descent
into a child consumes one unit, and `none` means the fuel ran out.  Identical
to `Insert` otherwise; `C9` proves that any fuel exceeding the tree's depth
suffices, which is the termination argument for Go's recursion. -/
def Quadtree.InsertFuel (A : Nat → MovementComponent) (i : Nat) :
    Nat → Quadtree → Option (Quadtree × Bool)
  | 0, _ => none
  | _ + 1, .leaf b comps =>
      if ¬ b.Contains (A i).Position then some (.leaf b comps, false)
      else if comps.length < capacity then some (.leaf b (comps ++ [i]), true)
      else
        let q := Quadtree.Subdivide b
        let rNW := insertNew (A i).Position i q.1
        if rNW.2 then
          some (.node b comps rNW.1 (.leaf q.2.1 []) (.leaf q.2.2.1 []) (.leaf q.2.2.2 []), true)
        else
          let rNE := insertNew (A i).Position i q.2.1
          if rNE.2 then
            some (.node b comps rNW.1 rNE.1 (.leaf q.2.2.1 []) (.leaf q.2.2.2 []), true)
          else
            let rSW := insertNew (A i).Position i q.2.2.1
            if rSW.2 then
              some (.node b comps rNW.1 rNE.1 rSW.1 (.leaf q.2.2.2 []), true)
            else
              let rSE := insertNew (A i).Position i q.2.2.2
              some (.node b comps rNW.1 rNE.1 rSW.1 rSE.1, rSE.2)
  | fuel + 1, .node b comps nw ne sw se =>
      if ¬ b.Contains (A i).Position then some (.node b comps nw ne sw se, false)
      else if comps.length < capacity then some (.node b (comps ++ [i]) nw ne sw se, true)
      else
        (Quadtree.InsertFuel A i fuel nw).bind fun rNW =>
          if rNW.2 then some (.node b comps rNW.1 ne sw se, true)
          else
            (Quadtree.InsertFuel A i fuel ne).bind fun rNE =>
              if rNE.2 then some (.node b comps rNW.1 rNE.1 sw se, true)
              else
                (Quadtree.InsertFuel A i fuel sw).bind fun rSW =>
                  if rSW.2 then some (.node b comps rNW.1 rNE.1 rSW.1 se, true)
                  else
                    (Quadtree.InsertFuel A i fuel se).bind fun rSE =>
                      some (.node b comps rNW.1 rNE.1 rSW.1 rSE.1, rSE.2)

/-- `WindowWidth = 1440.0` from `main.go`. -/
def WindowWidth : ℝ := 1440

/-- `WindowHeight = 900.0` from `main.go`. -/
def WindowHeight : ℝ := 900

/-- `BoidsCount = 200` from `main.go`; the systems below take the array
length as a parameter `n`, which the source fixes to this constant. -/
def BoidsCount : Nat := 200

/-- `MovementSystem` from `main.go`.  Configuration scalars are plain reals:
the source only ever stores finite literals in them. -/
structure MovementSystem where
  maxSpeed : ℝ

/-- The body of `MovementSystem.Update`'s loop (`main.go` lines 164–171) for
one agent: `Position += Velocity; Velocity += Acceleration;
Velocity.Limit(maxSpeed); Acceleration *= 0`. -/
def moveOne (ms : MovementSystem) (m : MovementComponent) : MovementComponent :=
  let pos := m.Position.Add m.Velocity
  let vel := (m.Velocity.Add m.Acceleration).Limit (some ms.maxSpeed)
  let acc := m.Acceleration.Multiply (some 0)
  ⟨pos, vel, acc⟩

/-- `MovementSystem.Update` (`main.go` lines 164–171): each loop iteration
reads and writes only agent `i`'s own component, so the sequential loop
equals this pointwise map over indices below `n`. -/
def MovementSystem.Update (ms : MovementSystem) (n : Nat)
    (A : Nat → MovementComponent) : Nat → MovementComponent :=
  fun i => if i < n then moveOne ms (A i) else A i

/-- `SteeringSystem` from `main.go`, fields in source order. -/
structure SteeringSystem where
  cohesionFactor : ℝ
  alignmentFactor : ℝ
  separationFactor : ℝ
  neighborhoodRange : ℝ
  maxForce : ℝ
  maxSpeed : ℝ

/-- The query rectangle built in `SteeringSystem.Update` (`main.go` lines
192–196): centered at the agent's position with `Width` and `Height` both set
to `neighborhoodRange`. -/
def SteeringSystem.queryRect (bs : SteeringSystem) (current : MovementComponent) : Rectangle :=
  ⟨current.Position, some bs.neighborhoodRange, some bs.neighborhoodRange⟩

/-- The neighbor-accumulation loop (`main.go` lines 200–217), threading the
accumulator `(alignment sum, cohesion sum, separation sum, neighborCount)`
through the returned neighbor list.  The pointer comparison `current == other`
is index equality `j = i`; the separation term divides the position difference
by the distance `d` unconditionally, as the source does.  Go stores
`neighborCount` in a `float64`; it is a small integer, modelled as `Nat` and
injected into `Flt` where divided by. -/
def accumNeighbors (A : Nat → MovementComponent) (i : Nat)
    (acc : Vector2D × Vector2D × Vector2D × Nat) :
    List Nat → Vector2D × Vector2D × Vector2D × Nat
  | [] => acc
  | j :: rest =>
      if j = i then accumNeighbors A i acc rest
      else
        let current := A i
        let other := A j
        let d := current.Position.Distance other.Position
        let align := acc.1.Add other.Velocity
        let coh := acc.2.1.Add other.Position
        let diff := (current.Position.Subtract other.Position).Divide d
        let sep := acc.2.2.1.Add diff
        accumNeighbors A i (align, coh, sep, acc.2.2.2 + 1) rest

/-- The alignment pipeline (`main.go` lines 221–224): average, rescale to
`maxSpeed`, subtract current velocity, clamp to `maxForce`. -/
def alignmentSteer (bs : SteeringSystem) (sumVel : Vector2D) (count : Nat)
    (current : MovementComponent) : Vector2D :=
  (((sumVel.Divide (some (count : ℝ))).SetMagnitude (some bs.maxSpeed)).Subtract
      current.Velocity).Limit (some bs.maxForce)

/-- The cohesion pipeline (`main.go` lines 226–230): average, subtract the
agent position, rescale to `maxSpeed`, subtract current velocity, clamp to
`maxForce`. -/
def cohesionSteer (bs : SteeringSystem) (sumPos : Vector2D) (count : Nat)
    (current : MovementComponent) : Vector2D :=
  ((((sumPos.Divide (some (count : ℝ))).Subtract current.Position).SetMagnitude
      (some bs.maxSpeed)).Subtract current.Velocity).Limit (some bs.maxForce)

/-- The separation pipeline before its final step (`main.go` lines 232–234):
average, rescale to `maxSpeed`, subtract current velocity. -/
def separationPre (bs : SteeringSystem) (sumSep : Vector2D) (count : Nat)
    (current : MovementComponent) : Vector2D :=
  ((sumSep.Divide (some (count : ℝ))).SetMagnitude (some bs.maxSpeed)).Subtract
    current.Velocity

/-- The full separation pipeline (`main.go` lines 232–235): the final step
sets the magnitude to `maxForce` (`SetMagnitude`, not `Limit`). -/
def separationSteer (bs : SteeringSystem) (sumSep : Vector2D) (count : Nat)
    (current : MovementComponent) : Vector2D :=
  (separationPre bs sumSep count current).SetMagnitude (some bs.maxForce)

/-- The acceleration update when `neighborCount > 0` (`main.go` lines
237–244): scale the three steering vectors by their factors, add each into
the acceleration accumulator, then divide the accumulator by 3. -/
def steerAccel (bs : SteeringSystem) (current : MovementComponent)
    (sums : Vector2D × Vector2D × Vector2D × Nat) : Vector2D :=
  let a := (alignmentSteer bs sums.1 sums.2.2.2 current).Multiply (some bs.alignmentFactor)
  let c := (cohesionSteer bs sums.2.1 sums.2.2.2 current).Multiply (some bs.cohesionFactor)
  let s := (separationSteer bs sums.2.2.1 sums.2.2.2 current).Multiply (some bs.separationFactor)
  (((current.Acceleration.Add a).Add c).Add s).Divide (some 3)

/-- `const boundaryMargin = 50.0` from `main.go`. -/
def boundaryMargin : ℝ := 50

/-- `const boundaryForce = 0.2` from `main.go`. -/
def boundaryForce : ℝ := 0.2

/-- `const bounce = false` from `main.go`: the wrap branch is the active
boundary policy. -/
def bounce : Bool := false

/-- The wrap branch (`main.go` lines 272–292): per axis, two sequential `if`
statements, the second testing the value updated by the first. -/
def wrapPosition (p : Vector2D) : Vector2D :=
  let x1 := if Flt.lt p.X (some 0) then some WindowWidth else p.X
  let x2 := if Flt.lt (some WindowWidth) x1 then some 0 else x1
  let y1 := if Flt.lt p.Y (some 0) then some WindowHeight else p.Y
  let y2 := if Flt.lt (some WindowHeight) y1 then some 0 else y1
  ⟨x2, y2⟩

/-- The bounce branch (`main.go` lines 252–271): within `boundaryMargin` of
an edge, add `boundaryForce` to the velocity pushing inward.  Dead code in
the source (`bounce = false`), embedded for completeness. -/
def bounceVelocity (p v : Vector2D) : Vector2D :=
  let vx1 := if Flt.lt p.X (some boundaryMargin) then v.X.add (some boundaryForce) else v.X
  let vx2 := if Flt.lt (some (WindowWidth - boundaryMargin)) p.X then vx1.sub (some boundaryForce) else vx1
  let vy1 := if Flt.lt p.Y (some boundaryMargin) then v.Y.add (some boundaryForce) else v.Y
  let vy2 := if Flt.lt (some (WindowHeight - boundaryMargin)) p.Y then vy1.sub (some boundaryForce) else vy1
  ⟨vx2, vy2⟩

/-- The body of `SteeringSystem.Update`'s loop (`main.go` lines 184–293) for
agent `i`, reading the current array state `A` (the quadtree holds pointers,
so queries and neighbor reads see in-place updates made for earlier agents):
query the index, accumulate neighbors, update the acceleration when any
neighbor was found, then apply the active boundary policy. -/
def steerOne (bs : SteeringSystem) (qt : Quadtree) (A : Nat → MovementComponent)
    (i : Nat) : MovementComponent :=
  let current := A i
  let rangeRec := bs.queryRect current
  let neighbours := qt.Query A rangeRec []
  let sums := accumNeighbors A i (⟨some 0, some 0⟩, ⟨some 0, some 0⟩, ⟨some 0, some 0⟩, 0) neighbours
  let c1 := if 0 < sums.2.2.2 then { current with Acceleration := steerAccel bs current sums } else current
  if bounce then { c1 with Velocity := bounceVelocity c1.Position c1.Velocity }
  else { c1 with Position := wrapPosition c1.Position }

/-- The sequential agent loop of `SteeringSystem.Update`: `steerLoop n`
processes agents `0, 1, …, n-1` in order, each step overwriting only its own
agent's component in the array state. -/
def steerLoop (bs : SteeringSystem) (qt : Quadtree) :
    Nat → (Nat → MovementComponent) → (Nat → MovementComponent)
  | 0, A => A
  | k + 1, A =>
      let A' := steerLoop bs qt k A
      fun j => if j = k then steerOne bs qt A' k else A' j

/-- `SteeringSystem.Update` (`main.go` lines 183–294) over an array of `n`
agents. -/
def SteeringSystem.Update (bs : SteeringSystem) (qt : Quadtree) (n : Nat)
    (A : Nat → MovementComponent) : Nat → MovementComponent :=
  steerLoop bs qt n A

/-- One simulation step of `run`'s frame loop (`main.go` lines 400–409):
build the quadtree over all agents, run the steering stage, then the
movement stage.  (`run` then clears the tree, which does not affect agent
state.) -/
def tick (bs : SteeringSystem) (ms : MovementSystem) (boundary : Rectangle)
    (n : Nat) (A : Nat → MovementComponent) : Nat → MovementComponent :=
  let qt := buildQuadtree boundary A (List.range n)
  MovementSystem.Update ms n (SteeringSystem.Update bs qt n A)

/-- The `MovementSystem` literal from `run` (`main.go` lines 321–323). -/
def runMovementSystem : MovementSystem := ⟨1⟩

/-- The `SteeringSystem` literal from `run` (`main.go` lines 325–332). -/
def runSteeringSystem : SteeringSystem := ⟨0.9, 1.0, 1.2, 75, 1.0, 4⟩

/-- The root boundary from `run` (`main.go` lines 336–340). -/
def runBoundary : Rectangle :=
  ⟨⟨some (WindowWidth / 2), some (WindowHeight / 2)⟩, some WindowWidth, some WindowHeight⟩

/-- A concrete two-agent population: agent 0 at `(100, 100)` with velocity
`(0, 0)` and a pre-existing acceleration `(3, 0)`; agent 1 five units to the
east at `(105, 100)` with velocity `(4, 0)`.  Used for concrete evaluations
of the steering stage. -/
def agentsSeparated : Nat → MovementComponent := fun i =>
  if i = 0 then ⟨⟨some 100, some 100⟩, ⟨some 0, some 0⟩, ⟨some 3, some 0⟩⟩
  else ⟨⟨some 105, some 100⟩, ⟨some 4, some 0⟩, ⟨some 0, some 0⟩⟩

/-- A concrete two-agent population with both (distinct) agents at the same
position `(100, 100)` at rest: the zero-distance configuration. -/
def agentsCoincident : Nat → MovementComponent := fun _ =>
  ⟨⟨some 100, some 100⟩, ⟨some 0, some 0⟩, ⟨some 0, some 0⟩⟩

/-! ### Evaluation lemmas for the float model -/

@[simp] theorem Flt.add_some (a b : ℝ) : Flt.add (some a) (some b) = some (a + b) := rfl

@[simp] theorem Flt.sub_some (a b : ℝ) : Flt.sub (some a) (some b) = some (a - b) := rfl

@[simp] theorem Flt.mul_some (a b : ℝ) : Flt.mul (some a) (some b) = some (a * b) := rfl

@[simp] theorem Flt.div_some (a b : ℝ) (hb : b ≠ 0) :
    Flt.div (some a) (some b) = some (a / b) := by
  simp [Flt.div, hb]

@[simp] theorem Flt.div_zero_eq (a : ℝ) : Flt.div (some a) (some 0) = none := by
  simp [Flt.div]

@[simp] theorem Flt.add_none_left (b : Flt) : Flt.add none b = none := rfl

@[simp] theorem Flt.add_none_right (a : Flt) : Flt.add a none = none := by
  cases a <;> rfl

@[simp] theorem Flt.sub_none_left (b : Flt) : Flt.sub none b = none := rfl

@[simp] theorem Flt.sub_none_right (a : Flt) : Flt.sub a none = none := by
  cases a <;> rfl

@[simp] theorem Flt.mul_none_left (b : Flt) : Flt.mul none b = none := rfl

@[simp] theorem Flt.mul_none_right (a : Flt) : Flt.mul a none = none := by
  cases a <;> rfl

@[simp] theorem Flt.div_none_left (b : Flt) : Flt.div none b = none := rfl

@[simp] theorem Flt.div_none_right (a : Flt) : Flt.div a none = none := by
  cases a <;> rfl

@[simp] theorem Flt.sqrt_none : Flt.sqrt none = none := rfl

@[simp] theorem Flt.sqrt_some (a : ℝ) (ha : 0 ≤ a) :
    Flt.sqrt (some a) = some (Real.sqrt a) := by
  simp [Flt.sqrt, not_lt.mpr ha]

@[simp] theorem Flt.lt_some (a b : ℝ) : Flt.lt (some a) (some b) ↔ a < b := Iff.rfl

@[simp] theorem Flt.le_some (a b : ℝ) : Flt.le (some a) (some b) ↔ a ≤ b := Iff.rfl

@[simp] theorem Flt.not_lt_none_left (b : Flt) : ¬ Flt.lt none b := fun h => h

@[simp] theorem Flt.not_lt_none_right (a : Flt) : ¬ Flt.lt a none := by
  cases a <;> exact fun h => h

@[simp] theorem Flt.not_le_none_left (b : Flt) : ¬ Flt.le none b := fun h => h

@[simp] theorem Flt.not_le_none_right (a : Flt) : ¬ Flt.le a none := by
  cases a <;> exact fun h => h

theorem Flt.le_some_some {a : Flt} {b : Flt} (h : Flt.le a b) :
    ∃ x y, a = some x ∧ b = some y ∧ x ≤ y := by
  cases a with
  | none => exact absurd h (Flt.not_le_none_left b)
  | some x =>
    cases b with
    | none => exact absurd h (Flt.not_le_none_right _)
    | some y => exact ⟨x, y, rfl, rfl, h⟩

theorem Flt.lt_some_some {a : Flt} {b : Flt} (h : Flt.lt a b) :
    ∃ x y, a = some x ∧ b = some y ∧ x < y := by
  cases a with
  | none => exact absurd h (Flt.not_lt_none_left b)
  | some x =>
    cases b with
    | none => exact absurd h (Flt.not_lt_none_right _)
    | some y => exact ⟨x, y, rfl, rfl, h⟩

/-- Magnitude of a finite vector: the square-sum is nonnegative, so the root
is finite. -/
@[simp] theorem Vector2D.Magnitude_some (a b : ℝ) :
    (Vector2D.mk (some a) (some b)).Magnitude = some (Real.sqrt (a * a + b * b)) := by
  have h : (0:ℝ) ≤ a * a + b * b := by nlinarith [mul_self_nonneg a, mul_self_nonneg b]
  simp [Vector2D.Magnitude, Flt.sqrt_some _ h]

@[simp] theorem Vector2D.Add_some (a b c d : ℝ) :
    (Vector2D.mk (some a) (some b)).Add ⟨some c, some d⟩ = ⟨some (a + c), some (b + d)⟩ := rfl

@[simp] theorem Vector2D.Subtract_some (a b c d : ℝ) :
    (Vector2D.mk (some a) (some b)).Subtract ⟨some c, some d⟩ = ⟨some (a - c), some (b - d)⟩ := rfl

@[simp] theorem Vector2D.Multiply_some (a b k : ℝ) :
    (Vector2D.mk (some a) (some b)).Multiply (some k) = ⟨some (a * k), some (b * k)⟩ := rfl

theorem Vector2D.Divide_some (a b k : ℝ) (hk : k ≠ 0) :
    (Vector2D.mk (some a) (some b)).Divide (some k) = ⟨some (a / k), some (b / k)⟩ := by
  simp [Vector2D.Divide, hk]

/-- `SetMagnitude` on a finite vector of nonzero magnitude. -/
theorem Vector2D.SetMagnitude_some (a b m : ℝ) (h : Real.sqrt (a * a + b * b) ≠ 0) :
    (Vector2D.mk (some a) (some b)).SetMagnitude (some m) =
      ⟨some (a / Real.sqrt (a * a + b * b) * m), some (b / Real.sqrt (a * a + b * b) * m)⟩ := by
  simp [Vector2D.SetMagnitude, Vector2D.Divide_some _ _ _ h]

/-- `SetMagnitude` on a finite zero vector is non-finite (0/0 is NaN). -/
theorem Vector2D.SetMagnitude_zero (m : Flt) :
    (Vector2D.mk (some 0) (some 0)).SetMagnitude m = ⟨none, none⟩ := by
  simp [Vector2D.SetMagnitude, Vector2D.Divide, Vector2D.Multiply, Flt.mul]

/-- `Limit` is a no-op when the magnitude does not exceed the bound. -/
theorem Vector2D.Limit_of_not_lt (v : Vector2D) (max : Flt)
    (h : ¬ Flt.lt max v.Magnitude) : v.Limit max = v := by
  simp [Vector2D.Limit, h]

/-- `Limit` rescales when the magnitude exceeds the bound. -/
theorem Vector2D.Limit_of_lt (v : Vector2D) (max : Flt)
    (h : Flt.lt max v.Magnitude) : v.Limit max = v.SetMagnitude max := by
  simp [Vector2D.Limit, h]

/-- The magnitude of `SetMagnitude v m` is exactly `m` for any finite nonzero
`v` and any nonnegative `m` — also when `v`'s magnitude is below `m`. -/
theorem Magnitude_SetMagnitude (a b m : ℝ) (hv : ¬ (a = 0 ∧ b = 0)) (hm : 0 ≤ m) :
    ((Vector2D.mk (some a) (some b)).SetMagnitude (some m)).Magnitude = some m := by
  have hpos : 0 < a * a + b * b := by
    rcases (not_and_or.mp hv) with h | h
    · have := mul_self_pos.mpr h
      nlinarith [mul_self_nonneg b]
    · have := mul_self_pos.mpr h
      nlinarith [mul_self_nonneg a]
  have hr : Real.sqrt (a * a + b * b) ≠ 0 := ne_of_gt (Real.sqrt_pos.mpr hpos)
  rw [Vector2D.SetMagnitude_some a b m hr, Vector2D.Magnitude_some]
  congr 1
  set r := Real.sqrt (a * a + b * b) with hrdef
  have hrsq : r * r = a * a + b * b := Real.mul_self_sqrt (le_of_lt hpos)
  have key : a / r * m * (a / r * m) + b / r * m * (b / r * m) = m * m := by
    have expand : a / r * m * (a / r * m) + b / r * m * (b / r * m)
        = (a * a + b * b) * (m * m) / (r * r) := by ring
    rw [expand, ← hrsq, mul_comm (r * r) (m * m), mul_div_assoc,
      div_self (mul_ne_zero hr hr), mul_one]
  rw [key, Real.sqrt_mul_self hm]

/-! ### Structure of the steering loop -/

/-- With the wrap policy active (`bounce = false`), an agent's new position
after its steering iteration is the wrap of its old position, regardless of
the index contents and of the neighbor computation. -/
theorem steerOne_Position (bs : SteeringSystem) (qt : Quadtree)
    (A : Nat → MovementComponent) (i : Nat) :
    (steerOne bs qt A i).Position = wrapPosition ((A i).Position) := by
  simp only [steerOne, bounce, Bool.false_eq_true, if_false]
  split <;> rfl

/-- With the wrap policy active, the steering iteration never writes the
agent's velocity. -/
theorem steerOne_Velocity (bs : SteeringSystem) (qt : Quadtree)
    (A : Nat → MovementComponent) (i : Nat) :
    (steerOne bs qt A i).Velocity = (A i).Velocity := by
  simp only [steerOne, bounce, Bool.false_eq_true, if_false]
  split <;> rfl

/-- Closed form of the sequential steering loop: agent `j < k` was processed
exactly once, at step `j`, against the state produced by the first `j` steps;
agents `j ≥ k` are untouched. -/
theorem steerLoop_eq (bs : SteeringSystem) (qt : Quadtree) (k : Nat)
    (A : Nat → MovementComponent) (j : Nat) :
    steerLoop bs qt k A j =
      if j < k then steerOne bs qt (steerLoop bs qt j A) j else A j := by
  induction k with
  | zero => simp [steerLoop]
  | succ k ih =>
    by_cases hjk : j = k
    · subst hjk
      simp [steerLoop, ih]
    · have : steerLoop bs qt (k + 1) A j = steerLoop bs qt k A j := by
        simp [steerLoop, hjk]
      rw [this, ih]
      rcases Nat.lt_trichotomy j k with h | h | h
      · rw [if_pos h, if_pos (Nat.lt_succ_of_lt h)]
      · exact absurd h hjk
      · rw [if_neg (Nat.not_lt.mpr (Nat.le_of_lt h)),
          if_neg (Nat.not_lt.mpr (Nat.succ_le_of_lt h))]

/-- Each processed agent reads its own component unmodified: the loop state
at step `i` still holds `A i` at index `i`. -/
theorem steerLoop_self (bs : SteeringSystem) (qt : Quadtree) (i : Nat)
    (A : Nat → MovementComponent) : steerLoop bs qt i A i = A i := by
  rw [steerLoop_eq, if_neg (lt_irrefl i)]

/-- The steering stage's update of agent `i < n`. -/
theorem SteeringSystem.Update_eq (bs : SteeringSystem) (qt : Quadtree) (n : Nat)
    (A : Nat → MovementComponent) (i : Nat) (hi : i < n) :
    SteeringSystem.Update bs qt n A i = steerOne bs qt (steerLoop bs qt i A) i := by
  rw [SteeringSystem.Update, steerLoop_eq, if_pos hi]

/-- One axis of the wrap step (`x < 0 ↦ W`, then `x > W ↦ 0`) lands in `[0, W]`
for any finite input. -/
theorem wrapCoord_mem (a W : ℝ) (hW : 0 ≤ W) :
    ∃ x : ℝ,
      (if Flt.lt (some W) (if Flt.lt (some a) (some 0) then some W else some a)
        then some 0 else if Flt.lt (some a) (some 0) then some W else some a) = some x ∧
      0 ≤ x ∧ x ≤ W := by
  by_cases h1 : a < 0
  · rw [if_pos ((Flt.lt_some a 0).mpr h1),
      if_neg ((Flt.lt_some W W).not.mpr (lt_irrefl W))]
    exact ⟨W, rfl, hW, le_refl W⟩
  · rw [if_neg ((Flt.lt_some a 0).not.mpr h1)]
    by_cases h2 : W < a
    · rw [if_pos ((Flt.lt_some W a).mpr h2)]
      exact ⟨0, rfl, le_refl 0, hW⟩
    · rw [if_neg ((Flt.lt_some W a).not.mpr h2)]
      exact ⟨a, rfl, not_lt.mp h1, not_lt.mp h2⟩

/-- The wrap step sends any finite coordinate pair into
`[0, WindowWidth] × [0, WindowHeight]`. -/
theorem wrapPosition_mem (a b : ℝ) :
    ∃ x y : ℝ, wrapPosition ⟨some a, some b⟩ = ⟨some x, some y⟩ ∧
      0 ≤ x ∧ x ≤ WindowWidth ∧ 0 ≤ y ∧ y ≤ WindowHeight := by
  obtain ⟨x, hx, hx0, hxW⟩ := wrapCoord_mem a WindowWidth (by norm_num [WindowWidth])
  obtain ⟨y, hy, hy0, hyH⟩ := wrapCoord_mem b WindowHeight (by norm_num [WindowHeight])
  refine ⟨x, y, ?_, hx0, hxW, hy0, hyH⟩
  simp only [wrapPosition]
  rw [hx, hy]

/-! ### Claims C2, C4, C5 -/

/-- C2 fails as stated: the wrap runs at the end of the steering stage, and
the movement stage afterwards adds the velocity to the position, which can
leave the world.  One agent at `(0, 0)` with velocity `(-1, 0)` ends the tick
(steering stage followed by movement stage, `run`'s configuration) at
`(-1, 0)`, violating `0 ≤ x`. -/
theorem C2_counterexample :
    ((tick runSteeringSystem runMovementSystem runBoundary 1
        (fun _ => ⟨⟨some 0, some 0⟩, ⟨some (-1), some 0⟩, ⟨some 0, some 0⟩⟩)) 0).Position
      = ⟨some (-1), some 0⟩ ∧ ¬ ((0:ℝ) ≤ -1) := by
  refine ⟨?_, by norm_num⟩
  set A : Nat → MovementComponent :=
    fun _ => ⟨⟨some 0, some 0⟩, ⟨some (-1), some 0⟩, ⟨some 0, some 0⟩⟩ with hA
  set qt := buildQuadtree runBoundary A (List.range 1) with hqt
  have h1 : tick runSteeringSystem runMovementSystem runBoundary 1 A =
      MovementSystem.Update runMovementSystem 1 (SteeringSystem.Update runSteeringSystem qt 1 A) := rfl
  rw [h1]
  have h3 : MovementSystem.Update runMovementSystem 1
        (SteeringSystem.Update runSteeringSystem qt 1 A) 0
      = moveOne runMovementSystem (SteeringSystem.Update runSteeringSystem qt 1 A 0) := by
    simp [MovementSystem.Update]
  rw [h3, SteeringSystem.Update_eq runSteeringSystem qt 1 A 0 Nat.zero_lt_one]
  have hpos : (steerOne runSteeringSystem qt (steerLoop runSteeringSystem qt 0 A) 0).Position
      = ⟨some 0, some 0⟩ := by
    rw [steerOne_Position]
    show wrapPosition ⟨some 0, some 0⟩ = _
    norm_num [wrapPosition, WindowWidth, WindowHeight]
  have hvel : (steerOne runSteeringSystem qt (steerLoop runSteeringSystem qt 0 A) 0).Velocity
      = ⟨some (-1), some 0⟩ := by
    rw [steerOne_Velocity]
    rfl
  simp only [moveOne]
  rw [hpos, hvel]
  norm_num

/-- C2 (amended): with the wrap policy, containment `0 ≤ x ≤ width`,
`0 ≤ y ≤ height` holds for every agent immediately after the *steering*
stage, whose final per-agent step is the wrap; the subsequent movement stage
may move a position back out of bounds (by at most the agent's speed). -/
theorem C2_containment_after_steering (bs : SteeringSystem) (qt : Quadtree)
    (n : Nat) (A : Nat → MovementComponent)
    (hfin : ∀ i, i < n → ∃ a b : ℝ, (A i).Position = ⟨some a, some b⟩) :
    ∀ i, i < n → ∃ x y : ℝ,
      (SteeringSystem.Update bs qt n A i).Position = ⟨some x, some y⟩ ∧
      0 ≤ x ∧ x ≤ WindowWidth ∧ 0 ≤ y ∧ y ≤ WindowHeight := by
  intro i hi
  obtain ⟨a, b, hab⟩ := hfin i hi
  rw [SteeringSystem.Update_eq bs qt n A i hi, steerOne_Position, steerLoop_self, hab]
  exact wrapPosition_mem a b

/-- Witness for `C2_containment_after_steering` at a concrete population. -/
theorem C2_containment_after_steering_witness :
    (∀ i, i < 1 → ∃ a b : ℝ,
      ((fun _ => (⟨⟨some (-5), some 300⟩, ⟨some 0, some 0⟩, ⟨some 0, some 0⟩⟩ :
          MovementComponent)) i).Position = ⟨some a, some b⟩) ∧
    (∃ x y : ℝ,
      (SteeringSystem.Update runSteeringSystem (.leaf runBoundary []) 1
        (fun _ => ⟨⟨some (-5), some 300⟩, ⟨some 0, some 0⟩, ⟨some 0, some 0⟩⟩) 0).Position
        = ⟨some x, some y⟩ ∧
      0 ≤ x ∧ x ≤ WindowWidth ∧ 0 ≤ y ∧ y ≤ WindowHeight) :=
  ⟨fun _ _ => ⟨-5, 300, rfl⟩,
    C2_containment_after_steering runSteeringSystem (.leaf runBoundary []) 1
      (fun _ => ⟨⟨some (-5), some 300⟩, ⟨some 0, some 0⟩, ⟨some 0, some 0⟩⟩)
      (fun _ _ => ⟨-5, 300, rfl⟩) 0 Nat.zero_lt_one⟩

/-- C4 fails as stated: the steering stage's boundary-wrap step writes the
agent's *position*.  A single agent at `(-1, 0)` has position `(1440, 0)`
after the steering stage, not its previous-tick position. -/
theorem C4_counterexample :
    ((SteeringSystem.Update runSteeringSystem
        (buildQuadtree runBoundary
          (fun _ => ⟨⟨some (-1), some 0⟩, ⟨some 2, some 3⟩, ⟨some 0, some 0⟩⟩) (List.range 1)) 1
        (fun _ => ⟨⟨some (-1), some 0⟩, ⟨some 2, some 3⟩, ⟨some 0, some 0⟩⟩)) 0).Position
      = ⟨some WindowWidth, some 0⟩ ∧
    (⟨some WindowWidth, some 0⟩ : Vector2D) ≠ ⟨some (-1), some 0⟩ := by
  constructor
  · rw [SteeringSystem.Update_eq _ _ _ _ 0 Nat.zero_lt_one, steerOne_Position, steerLoop_self]
    show wrapPosition ⟨some (-1), some 0⟩ = _
    norm_num [wrapPosition, WindowWidth, WindowHeight]
  · intro h
    rw [Vector2D.mk.injEq] at h
    have := h.1
    norm_num [WindowWidth] at this

/-- C4 (amended): with the wrap policy, the steering stage writes, for each
agent, only that agent's own acceleration and — through the wrap step — its
own position; velocities are never written, and agents beyond the array are
untouched.  (Because the wrap runs inside the per-agent loop, a later agent
may read an earlier agent's wrapped position rather than its previous-tick
position.) -/
theorem C4_steering_writes_own (bs : SteeringSystem) (qt : Quadtree) (n : Nat)
    (A : Nat → MovementComponent) :
    (∀ i, i < n → ∃ acc : Vector2D,
        SteeringSystem.Update bs qt n A i =
          ⟨wrapPosition ((A i).Position), (A i).Velocity, acc⟩) ∧
    (∀ i, n ≤ i → SteeringSystem.Update bs qt n A i = A i) := by
  constructor
  · intro i hi
    rw [SteeringSystem.Update_eq bs qt n A i hi]
    have hp := steerOne_Position bs qt (steerLoop bs qt i A) i
    have hv := steerOne_Velocity bs qt (steerLoop bs qt i A) i
    rw [steerLoop_self] at hp hv
    exact ⟨(steerOne bs qt (steerLoop bs qt i A) i).Acceleration, by rw [← hp, ← hv]⟩
  · intro i hi
    rw [SteeringSystem.Update, steerLoop_eq, if_neg (Nat.not_lt.mpr hi)]

/-- Witness for `C4_steering_writes_own` at a concrete population. -/
theorem C4_steering_writes_own_witness :
    (0:ℕ) < 1 ∧ ∃ acc : Vector2D,
      SteeringSystem.Update runSteeringSystem (.leaf runBoundary []) 1
        (fun _ => ⟨⟨some 7, some 8⟩, ⟨some 1, some 2⟩, ⟨some 0, some 0⟩⟩) 0 =
        ⟨wrapPosition ⟨some 7, some 8⟩, ⟨some 1, some 2⟩, acc⟩ :=
  ⟨Nat.zero_lt_one,
    (C4_steering_writes_own runSteeringSystem (.leaf runBoundary []) 1
      (fun _ => ⟨⟨some 7, some 8⟩, ⟨some 1, some 2⟩, ⟨some 0, some 0⟩⟩)).1 0 Nat.zero_lt_one⟩

/-- C5 fails as stated: the code sets the query rectangle's full `Width` and
`Height` to `neighborhoodRange`, so its half-dimensions are
`neighborhoodRange / 2`, not `neighborhoodRange`.  With `run`'s
`neighborhoodRange = 75` and an agent at `(100, 100)`, the point `(150, 100)`
lies within `neighborhoodRange` of the agent on both axes — inside the span
`position ± neighborhoodRange` the claim describes — yet the rectangle the
code builds does not contain it. -/
theorem C5_counterexample :
    ¬ (SteeringSystem.queryRect runSteeringSystem
        ⟨⟨some 100, some 100⟩, ⟨some 0, some 0⟩, ⟨some 0, some 0⟩⟩).Contains
        ⟨some 150, some 100⟩ ∧
    |(150:ℝ) - 100| ≤ runSteeringSystem.neighborhoodRange ∧
    |(100:ℝ) - 100| ≤ runSteeringSystem.neighborhoodRange := by
  refine ⟨?_, by norm_num [runSteeringSystem], by norm_num [runSteeringSystem]⟩
  intro h
  have h2 := h.2.1
  norm_num [SteeringSystem.queryRect, runSteeringSystem] at h2

/-- C5 (amended): the steering stage queries the index with a rectangle
centered at the agent's position whose full width and height equal
`neighborhoodRange`, i.e. whose half-dimensions are `neighborhoodRange / 2`:
it contains exactly the points within `neighborhoodRange / 2` of the agent's
position along each axis. -/
theorem C5_queryRect_half_range (bs : SteeringSystem) (cur : MovementComponent)
    (cx cy px py : ℝ) (hc : cur.Position = ⟨some cx, some cy⟩) :
    (bs.queryRect cur).Contains ⟨some px, some py⟩ ↔
      |px - cx| ≤ bs.neighborhoodRange / 2 ∧ |py - cy| ≤ bs.neighborhoodRange / 2 := by
  have h2 : (2:ℝ) ≠ 0 := two_ne_zero
  simp only [SteeringSystem.queryRect, Rectangle.Contains, hc, Flt.div_some _ _ h2,
    Flt.sub_some, Flt.add_some, Flt.le_some, abs_sub_le_iff]
  constructor
  · rintro ⟨a1, a2, a3, a4⟩
    exact ⟨⟨by linarith, by linarith⟩, by linarith, by linarith⟩
  · rintro ⟨⟨a1, a2⟩, a3, a4⟩
    exact ⟨by linarith, by linarith, by linarith, by linarith⟩

/-- Witness for `C5_queryRect_half_range` at a concrete agent and point. -/
theorem C5_queryRect_half_range_witness :
    ((⟨⟨some 100, some 100⟩, ⟨some 0, some 0⟩, ⟨some 0, some 0⟩⟩ :
        MovementComponent)).Position = ⟨some 100, some 100⟩ ∧
    ((SteeringSystem.queryRect runSteeringSystem
        ⟨⟨some 100, some 100⟩, ⟨some 0, some 0⟩, ⟨some 0, some 0⟩⟩).Contains
        ⟨some 120, some 110⟩ ↔
      |(120:ℝ) - 100| ≤ runSteeringSystem.neighborhoodRange / 2 ∧
      |(110:ℝ) - 100| ≤ runSteeringSystem.neighborhoodRange / 2) :=
  ⟨rfl, C5_queryRect_half_range runSteeringSystem _ 100 100 120 110 rfl⟩

/-! ### Further evaluation lemmas -/

/-- Distance between finite vectors. -/
theorem Vector2D.Distance_some (a b c d : ℝ) :
    (Vector2D.mk (some a) (some b)).Distance ⟨some c, some d⟩ =
      some (Real.sqrt ((a - c) * (a - c) + (b - d) * (b - d))) := by
  rw [Vector2D.Distance, Vector2D.Subtract_some, Vector2D.Magnitude_some]

/-- `SetMagnitude` evaluated with a precomputed nonzero root. -/
theorem Vector2D.SetMagnitude_eval (a b m r : ℝ)
    (hr : Real.sqrt (a * a + b * b) = r) (hr0 : r ≠ 0) :
    (Vector2D.mk (some a) (some b)).SetMagnitude (some m) =
      ⟨some (a / r * m), some (b / r * m)⟩ := by
  rw [Vector2D.SetMagnitude_some a b m (by rw [hr]; exact hr0), hr]

/-- `Limit` evaluated when the precomputed magnitude exceeds the bound. -/
theorem Vector2D.Limit_some_gt (a b max r : ℝ)
    (hr : Real.sqrt (a * a + b * b) = r) (hlt : max < r) :
    (Vector2D.mk (some a) (some b)).Limit (some max) =
      (Vector2D.mk (some a) (some b)).SetMagnitude (some max) := by
  apply Vector2D.Limit_of_lt
  rw [Vector2D.Magnitude_some, hr]
  exact (Flt.lt_some max r).mpr hlt

/-- `Limit` evaluated when the precomputed magnitude is within the bound. -/
theorem Vector2D.Limit_some_le (a b max r : ℝ)
    (hr : Real.sqrt (a * a + b * b) = r) (hle : r ≤ max) :
    (Vector2D.mk (some a) (some b)).Limit (some max) = ⟨some a, some b⟩ := by
  apply Vector2D.Limit_of_not_lt
  rw [Vector2D.Magnitude_some, hr]
  exact (Flt.lt_some max r).not.mpr (not_lt.mpr hle)

/-- `Flt` addition is associative (non-finiteness propagates on both sides). -/
theorem Flt.add_assoc (a b c : Flt) : (a.add b).add c = a.add (b.add c) := by
  cases a <;> cases b <;> cases c <;> simp [Flt.add] <;> ring

/-- Vector addition is associative. -/
theorem Vector2D.Add_assoc (u v w : Vector2D) : (u.Add v).Add w = u.Add (v.Add w) := by
  simp [Vector2D.Add, Flt.add_assoc]

/-! ### Claims C7 and C8 -/

/-- C7: the final step of the separation pipeline sets the vector's magnitude
to exactly `maxForce` whenever the intermediate vector (average, rescale to
`maxSpeed`, subtract velocity) is finite and nonzero and `maxForce` is
nonnegative — including when its magnitude is already below `maxForce`, where
a clamp (`Limit`) would have left it unchanged.  This happens before the
`separationFactor` scaling. -/
theorem C7_separation_forced_to_maxForce (bs : SteeringSystem) (sumSep : Vector2D)
    (count : Nat) (current : MovementComponent) (a b : ℝ)
    (hpre : separationPre bs sumSep count current = ⟨some a, some b⟩)
    (hnz : ¬ (a = 0 ∧ b = 0)) (hm : 0 ≤ bs.maxForce) :
    (separationSteer bs sumSep count current).Magnitude = some bs.maxForce := by
  rw [separationSteer, hpre]
  exact Magnitude_SetMagnitude a b bs.maxForce hnz hm

/-- Witness for `C7_separation_forced_to_maxForce`: a concrete input whose
intermediate separation vector has magnitude `1/2 < maxForce = 1`, and the
result's magnitude is still forced up to exactly `maxForce`. -/
theorem C7_separation_forced_to_maxForce_witness :
    separationPre runSteeringSystem ⟨some 1, some 0⟩ 1
      ⟨⟨some 0, some 0⟩, ⟨some (7/2), some 0⟩, ⟨some 0, some 0⟩⟩ = ⟨some (1/2), some 0⟩ ∧
    ¬ ((1/2 : ℝ) = 0 ∧ (0:ℝ) = 0) ∧ (0:ℝ) ≤ runSteeringSystem.maxForce ∧
    (separationSteer runSteeringSystem ⟨some 1, some 0⟩ 1
      ⟨⟨some 0, some 0⟩, ⟨some (7/2), some 0⟩, ⟨some 0, some 0⟩⟩).Magnitude
      = some runSteeringSystem.maxForce := by
  have hpre : separationPre runSteeringSystem ⟨some 1, some 0⟩ 1
      ⟨⟨some 0, some 0⟩, ⟨some (7/2), some 0⟩, ⟨some 0, some 0⟩⟩ = ⟨some (1/2), some 0⟩ := by
    rw [separationPre]
    have h1 : (Vector2D.mk (some 1) (some 0)).Divide (some ((1:ℕ) : ℝ)) =
        ⟨some 1, some 0⟩ := by
      norm_num [Vector2D.Divide, Flt.div]
    rw [h1, Vector2D.SetMagnitude_eval 1 0 _ 1 (by norm_num) one_ne_zero]
    show (Vector2D.mk (some (1/1*4)) (some (0/1*4))).Subtract ⟨some (7/2), some 0⟩ = _
    norm_num [Vector2D.Subtract, Flt.sub]
  refine ⟨hpre, by norm_num, by norm_num [runSteeringSystem], ?_⟩
  exact C7_separation_forced_to_maxForce runSteeringSystem _ 1 _ (1/2) 0 hpre
    (by norm_num) (by norm_num [runSteeringSystem])

/-- C8 (amended): when an agent has neighbors, the code scales the three
steering vectors by their configured weights and adds them, but divides the
*whole accumulator* by 3: new acceleration = (old acceleration + weighted
sum) / 3.  A pre-existing accumulator contribution is therefore also divided
by 3, not left unchanged. -/
theorem C8_divides_whole_accumulator (bs : SteeringSystem)
    (current : MovementComponent) (sums : Vector2D × Vector2D × Vector2D × Nat) :
    steerAccel bs current sums =
      (current.Acceleration.Add
        (((alignmentSteer bs sums.1 sums.2.2.2 current).Multiply (some bs.alignmentFactor)).Add
          (((cohesionSteer bs sums.2.1 sums.2.2.2 current).Multiply (some bs.cohesionFactor)).Add
            ((separationSteer bs sums.2.2.1 sums.2.2.2 current).Multiply
              (some bs.separationFactor))))).Divide (some 3) := by
  rw [steerAccel]
  simp only [Vector2D.Add_assoc]

/-- When the accumulated neighbor count is positive, the steering iteration
stores `steerAccel` into the agent's acceleration. -/
theorem steerOne_Acceleration_of_pos (bs : SteeringSystem) (qt : Quadtree)
    (A : Nat → MovementComponent) (i : Nat)
    (sums : Vector2D × Vector2D × Vector2D × Nat)
    (hs : accumNeighbors A i (⟨some 0, some 0⟩, ⟨some 0, some 0⟩, ⟨some 0, some 0⟩, 0)
        (qt.Query A (bs.queryRect (A i)) []) = sums)
    (hpos : 0 < sums.2.2.2) :
    (steerOne bs qt A i).Acceleration = steerAccel bs (A i) sums := by
  simp only [steerOne, hs, bounce, Bool.false_eq_true, if_false]
  rw [if_pos hpos]

theorem sqrt_sixteen : Real.sqrt 16 = 4 := by
  rw [show (16:ℝ) = 4 ^ 2 by norm_num]
  exact Real.sqrt_sq (by norm_num)

theorem sqrt_twentyfive : Real.sqrt 25 = 5 := by
  rw [show (25:ℝ) = 5 ^ 2 by norm_num]
  exact Real.sqrt_sq (by norm_num)

/-- The quadtree built by `run` over the two separated agents: both positions
are inside the root boundary and the bucket has room, so both land in the
root bucket. -/
theorem buildQuadtree_agentsSeparated :
    buildQuadtree runBoundary agentsSeparated (List.range 2) =
      .leaf runBoundary [0, 1] := by
  have hr2 : List.range 2 = [0, 1] := rfl
  rw [buildQuadtree, hr2]
  norm_num [List.foldl, Quadtree.Insert, runBoundary, Rectangle.Contains,
    agentsSeparated, Flt.le, Flt.add, Flt.sub, Flt.div, capacity,
    WindowWidth, WindowHeight]

/-- Agent 0's neighbor query over the separated population returns both
agents. -/
theorem query_agentsSeparated :
    (Quadtree.leaf runBoundary [0, 1]).Query agentsSeparated
      (runSteeringSystem.queryRect (agentsSeparated 0)) [] = [0, 1] := by
  norm_num [Quadtree.Query, SteeringSystem.queryRect, Rectangle.Intersects,
    Rectangle.Contains, runBoundary, runSteeringSystem, agentsSeparated,
    Flt.lt, Flt.le, Flt.add, Flt.sub, Flt.div, WindowWidth, WindowHeight,
    List.filter_cons, List.filter_nil, decide_eq_true_eq]

/-- Neighbor accumulation for agent 0 over `[0, 1]`: the self entry is
skipped, agent 1 contributes velocity `(4,0)`, position `(105,100)` and a
separation term `(-1, 0)` (distance 5). -/
theorem accum_agentsSeparated :
    accumNeighbors agentsSeparated 0
      (⟨some 0, some 0⟩, ⟨some 0, some 0⟩, ⟨some 0, some 0⟩, 0) [0, 1] =
      (⟨some 4, some 0⟩, ⟨some 105, some 100⟩, ⟨some (-1), some 0⟩, 1) := by
  norm_num [accumNeighbors, agentsSeparated, Vector2D.Add, Vector2D.Subtract,
    Vector2D.Divide, Vector2D.Distance, Vector2D.Magnitude, Flt.add, Flt.sub,
    Flt.div, Flt.mul, Flt.sqrt, sqrt_twentyfive]

/-- Alignment pipeline at the separated population's inputs. -/
theorem align_agentsSeparated :
    alignmentSteer runSteeringSystem ⟨some 4, some 0⟩ 1 (agentsSeparated 0) =
      ⟨some 1, some 0⟩ := by
  norm_num [alignmentSteer, runSteeringSystem, agentsSeparated, Vector2D.Divide,
    Vector2D.SetMagnitude, Vector2D.Subtract, Vector2D.Multiply, Vector2D.Limit,
    Vector2D.Magnitude, Flt.div, Flt.mul, Flt.add, Flt.sub, Flt.sqrt, Flt.lt,
    sqrt_sixteen]

/-- Cohesion pipeline at the separated population's inputs. -/
theorem cohesion_agentsSeparated :
    cohesionSteer runSteeringSystem ⟨some 105, some 100⟩ 1 (agentsSeparated 0) =
      ⟨some 1, some 0⟩ := by
  norm_num [cohesionSteer, runSteeringSystem, agentsSeparated, Vector2D.Divide,
    Vector2D.SetMagnitude, Vector2D.Subtract, Vector2D.Multiply, Vector2D.Limit,
    Vector2D.Magnitude, Flt.div, Flt.mul, Flt.add, Flt.sub, Flt.sqrt, Flt.lt,
    sqrt_sixteen, sqrt_twentyfive]

/-- Separation pipeline at the separated population's inputs. -/
theorem separation_agentsSeparated :
    separationSteer runSteeringSystem ⟨some (-1), some 0⟩ 1 (agentsSeparated 0) =
      ⟨some (-1), some 0⟩ := by
  norm_num [separationSteer, separationPre, runSteeringSystem, agentsSeparated,
    Vector2D.Divide, Vector2D.SetMagnitude, Vector2D.Subtract, Vector2D.Multiply,
    Vector2D.Magnitude, Flt.div, Flt.mul, Flt.add, Flt.sub, Flt.sqrt, Flt.lt,
    sqrt_sixteen, Real.sqrt_one]

/-- C8 fails as stated: at the separated two-agent population under `run`'s
configuration, agent 0 (old acceleration `(3, 0)`, one neighbor) ends the
steering stage with acceleration `(37/30, 0) = ((3,0) + weighted sum)/3`,
whereas the claim's formula — old acceleration plus the weighted sum divided
by 3 — yields `(97/30, 0)`: the pre-existing contribution is also divided
by 3, not left unchanged. -/
theorem C8_counterexample :
    (steerOne runSteeringSystem (buildQuadtree runBoundary agentsSeparated (List.range 2))
        agentsSeparated 0).Acceleration = ⟨some (37/30), some 0⟩ ∧
    (agentsSeparated 0).Acceleration.Add
      ((((alignmentSteer runSteeringSystem ⟨some 4, some 0⟩ 1 (agentsSeparated 0)).Multiply
            (some runSteeringSystem.alignmentFactor)).Add
        (((cohesionSteer runSteeringSystem ⟨some 105, some 100⟩ 1 (agentsSeparated 0)).Multiply
            (some runSteeringSystem.cohesionFactor)).Add
          ((separationSteer runSteeringSystem ⟨some (-1), some 0⟩ 1 (agentsSeparated 0)).Multiply
            (some runSteeringSystem.separationFactor)))).Divide (some 3))
      = ⟨some (97/30), some 0⟩ ∧
    (⟨some (37/30), some 0⟩ : Vector2D) ≠ ⟨some (97/30), some 0⟩ := by
  refine ⟨?_, ?_, ?_⟩
  · rw [buildQuadtree_agentsSeparated]
    rw [steerOne_Acceleration_of_pos runSteeringSystem _ _ 0
      (⟨some 4, some 0⟩, ⟨some 105, some 100⟩, ⟨some (-1), some 0⟩, 1)
      (by rw [query_agentsSeparated]; exact accum_agentsSeparated) Nat.zero_lt_one]
    rw [steerAccel]
    norm_num [align_agentsSeparated, cohesion_agentsSeparated, separation_agentsSeparated]
    norm_num [runSteeringSystem, agentsSeparated,
      Vector2D.Multiply, Vector2D.Add, Vector2D.Divide, Flt.mul, Flt.add, Flt.div]
  · rw [align_agentsSeparated, cohesion_agentsSeparated, separation_agentsSeparated]
    norm_num [runSteeringSystem, agentsSeparated,
      Vector2D.Multiply, Vector2D.Add, Vector2D.Divide, Flt.mul, Flt.add, Flt.div]
  · intro h
    have h1 : (some (37/30 : ℝ) : Flt) = some (97/30) := congrArg Vector2D.X h
    have h2 : (37/30 : ℝ) = 97/30 := Option.some.inj h1
    norm_num at h2

/-- C3: the claim is right about what *should* happen but the code does not
skip zero-distance neighbors: for two distinct agents at the same position
(within range, at rest), the separation term divides the zero difference
vector by the zero distance, and agent 0's acceleration after the steering
stage has both components non-finite (`none` = NaN). -/
theorem C3_zero_distance_acceleration_nonfinite :
    (steerOne runSteeringSystem (buildQuadtree runBoundary agentsCoincident (List.range 2))
        agentsCoincident 0).Acceleration = ⟨none, none⟩ := by
  have hbuild : buildQuadtree runBoundary agentsCoincident (List.range 2) =
      .leaf runBoundary [0, 1] := by
    have hr2 : List.range 2 = [0, 1] := rfl
    rw [buildQuadtree, hr2]
    norm_num [List.foldl, Quadtree.Insert, runBoundary, Rectangle.Contains,
      agentsCoincident, Flt.le, Flt.add, Flt.sub, Flt.div, capacity,
      WindowWidth, WindowHeight]
  have hquery : (Quadtree.leaf runBoundary [0, 1]).Query agentsCoincident
      (runSteeringSystem.queryRect (agentsCoincident 0)) [] = [0, 1] := by
    norm_num [Quadtree.Query, SteeringSystem.queryRect, Rectangle.Intersects,
      Rectangle.Contains, runBoundary, runSteeringSystem, agentsCoincident,
      Flt.lt, Flt.le, Flt.add, Flt.sub, Flt.div, WindowWidth, WindowHeight,
      List.filter_cons, List.filter_nil, decide_eq_true_eq]
  have haccum : accumNeighbors agentsCoincident 0
      (⟨some 0, some 0⟩, ⟨some 0, some 0⟩, ⟨some 0, some 0⟩, 0) [0, 1] =
      (⟨some 0, some 0⟩, ⟨some 100, some 100⟩, ⟨none, none⟩, 1) := by
    norm_num [accumNeighbors, agentsCoincident, Vector2D.Add, Vector2D.Subtract,
      Vector2D.Divide, Vector2D.Distance, Vector2D.Magnitude, Flt.add, Flt.sub,
      Flt.div, Flt.mul, Flt.sqrt, Real.sqrt_zero]
  have halignC : alignmentSteer runSteeringSystem ⟨some 0, some 0⟩ 1 (agentsCoincident 0) =
      ⟨none, none⟩ := by
    norm_num [alignmentSteer, runSteeringSystem, agentsCoincident,
      Vector2D.Divide, Vector2D.SetMagnitude, Vector2D.Subtract, Vector2D.Multiply,
      Vector2D.Limit, Vector2D.Magnitude,
      Flt.div, Flt.mul, Flt.add, Flt.sub, Flt.sqrt, Flt.lt, Real.sqrt_zero]
  have hcohC : cohesionSteer runSteeringSystem ⟨some 100, some 100⟩ 1 (agentsCoincident 0) =
      ⟨none, none⟩ := by
    norm_num [cohesionSteer, runSteeringSystem, agentsCoincident,
      Vector2D.Divide, Vector2D.SetMagnitude, Vector2D.Subtract, Vector2D.Multiply,
      Vector2D.Limit, Vector2D.Magnitude,
      Flt.div, Flt.mul, Flt.add, Flt.sub, Flt.sqrt, Flt.lt, Real.sqrt_zero]
  have hsepC : separationSteer runSteeringSystem ⟨none, none⟩ 1 (agentsCoincident 0) =
      ⟨none, none⟩ := by
    norm_num [separationSteer, separationPre, runSteeringSystem, agentsCoincident,
      Vector2D.Divide, Vector2D.SetMagnitude, Vector2D.Subtract, Vector2D.Multiply,
      Vector2D.Magnitude,
      Flt.div, Flt.mul, Flt.add, Flt.sub, Flt.sqrt, Flt.lt, Real.sqrt_zero]
  rw [hbuild]
  rw [steerOne_Acceleration_of_pos runSteeringSystem _ _ 0
    (⟨some 0, some 0⟩, ⟨some 100, some 100⟩, ⟨none, none⟩, 1)
    (by rw [hquery]; exact haccum) Nat.zero_lt_one]
  rw [steerAccel]
  norm_num [halignC, hcohC, hsepC]
  norm_num [agentsCoincident, Vector2D.Multiply, Vector2D.Add, Vector2D.Divide,
    Flt.mul, Flt.add, Flt.div]

/-! ### Quadtree geometry lemmas -/

theorem Flt.sub_eq_some {a b : Flt} {c : ℝ} (h : Flt.sub a b = some c) :
    ∃ x y : ℝ, a = some x ∧ b = some y ∧ x - y = c := by
  cases a with
  | none => simp [Flt.sub] at h
  | some x =>
    cases b with
    | none => simp [Flt.sub] at h
    | some y => exact ⟨x, y, rfl, rfl, by simpa [Flt.sub] using h⟩

theorem Flt.add_eq_some {a b : Flt} {c : ℝ} (h : Flt.add a b = some c) :
    ∃ x y : ℝ, a = some x ∧ b = some y ∧ x + y = c := by
  cases a with
  | none => simp [Flt.add] at h
  | some x =>
    cases b with
    | none => simp [Flt.add] at h
    | some y => exact ⟨x, y, rfl, rfl, by simpa [Flt.add] using h⟩

theorem Flt.div_eq_some {a b : Flt} {c : ℝ} (h : Flt.div a b = some c) :
    ∃ x y : ℝ, a = some x ∧ b = some y ∧ y ≠ 0 ∧ x / y = c := by
  cases a with
  | none => simp [Flt.div] at h
  | some x =>
    cases b with
    | none => simp [Flt.div] at h
    | some y =>
      by_cases hy : y = 0
      · simp [Flt.div, hy] at h
      · exact ⟨x, y, rfl, rfl, hy, by simpa [Flt.div, hy] using h⟩

/-- `Contains` over fully finite data, as real inequalities. -/
theorem Rectangle.contains_iff (cx cy w ht px py : ℝ) :
    (Rectangle.mk ⟨some cx, some cy⟩ (some w) (some ht)).Contains ⟨some px, some py⟩ ↔
      cx - w / 2 ≤ px ∧ px ≤ cx + w / 2 ∧ cy - ht / 2 ≤ py ∧ py ≤ cy + ht / 2 := by
  norm_num [Rectangle.Contains, Flt.sub, Flt.add, Flt.div, Flt.le]

set_option maxHeartbeats 2000000 in
/-- A true `Contains` forces the rectangle and the point to be finite and
yields the real bounds. -/
theorem Rectangle.contains_finite {r : Rectangle} {p : Vector2D} (h : r.Contains p) :
    ∃ cx cy w ht px py : ℝ,
      r = ⟨⟨some cx, some cy⟩, some w, some ht⟩ ∧ p = ⟨some px, some py⟩ ∧
      cx - w / 2 ≤ px ∧ px ≤ cx + w / 2 ∧ cy - ht / 2 ≤ py ∧ py ≤ cy + ht / 2 := by
  revert h
  rcases r with ⟨⟨X, Y⟩, W, H⟩
  rcases p with ⟨PX, PY⟩
  rcases X with _ | cx <;> rcases Y with _ | cy <;> rcases W with _ | w <;>
    rcases H with _ | ht <;> rcases PX with _ | px <;> rcases PY with _ | py <;>
    norm_num [Rectangle.Contains, Flt.sub, Flt.add, Flt.div, Flt.le]
  intro h1 h2 h3 h4
  exact ⟨cx, cy, w, ht, ⟨⟨rfl, rfl⟩, rfl, rfl⟩, px, py, ⟨rfl, rfl⟩, h1, h2, h3, h4⟩

/-- Two rectangles containing a common point intersect: the coarse prune in
`Query` can never cut off a subtree holding a matching entry. -/
theorem Rectangle.intersects_of_common {r R : Rectangle} {p : Vector2D}
    (h1 : r.Contains p) (h2 : R.Contains p) : r.Intersects R := by
  obtain ⟨cx, cy, w, ht, px, py, hr, hp, a1, a2, a3, a4⟩ := Rectangle.contains_finite h1
  obtain ⟨dx, dy, v, vt, qx, qy, hR, hq, b1, b2, b3, b4⟩ := Rectangle.contains_finite h2
  subst hr hR hp
  injection hq with hqx hqy
  have ex : qx = px := (Option.some.inj hqx).symm
  have ey : qy = py := (Option.some.inj hqy).symm
  subst ex ey
  norm_num [Rectangle.Intersects, Flt.add, Flt.sub, Flt.div, Flt.lt]
  refine ⟨by linarith, by linarith, by linarith, by linarith⟩

/-- The four quadrants created by `Subdivide` cover the parent rectangle
(finite version). -/
theorem subdivide_covers (cx cy w ht px py : ℝ)
    (h1 : cx - w / 2 ≤ px) (h2 : px ≤ cx + w / 2)
    (h3 : cy - ht / 2 ≤ py) (h4 : py ≤ cy + ht / 2) :
    ((Quadtree.Subdivide ⟨⟨some cx, some cy⟩, some w, some ht⟩).1.Contains ⟨some px, some py⟩) ∨
    ((Quadtree.Subdivide ⟨⟨some cx, some cy⟩, some w, some ht⟩).2.1.Contains ⟨some px, some py⟩) ∨
    ((Quadtree.Subdivide ⟨⟨some cx, some cy⟩, some w, some ht⟩).2.2.1.Contains ⟨some px, some py⟩) ∨
    ((Quadtree.Subdivide ⟨⟨some cx, some cy⟩, some w, some ht⟩).2.2.2.Contains ⟨some px, some py⟩) := by
  have he : Quadtree.Subdivide ⟨⟨some cx, some cy⟩, some w, some ht⟩ =
      (⟨⟨some (cx - w / 2 / 2), some (cy - ht / 2 / 2)⟩, some (w / 2), some (ht / 2)⟩,
       ⟨⟨some (cx + w / 2 / 2), some (cy - ht / 2 / 2)⟩, some (w / 2), some (ht / 2)⟩,
       ⟨⟨some (cx - w / 2 / 2), some (cy + ht / 2 / 2)⟩, some (w / 2), some (ht / 2)⟩,
       ⟨⟨some (cx + w / 2 / 2), some (cy + ht / 2 / 2)⟩, some (w / 2), some (ht / 2)⟩) := by
    norm_num [Quadtree.Subdivide, Flt.div, Flt.sub, Flt.add]
  rw [he]
  rcases le_or_lt px cx with hx | hx <;> rcases le_or_lt py cy with hy | hy
  · exact Or.inl ((Rectangle.contains_iff _ _ _ _ _ _).mpr
      ⟨by linarith, by linarith, by linarith, by linarith⟩)
  · exact Or.inr (Or.inr (Or.inl ((Rectangle.contains_iff _ _ _ _ _ _).mpr
      ⟨by linarith, by linarith, by linarith, by linarith⟩)))
  · exact Or.inr (Or.inl ((Rectangle.contains_iff _ _ _ _ _ _).mpr
      ⟨by linarith, by linarith, by linarith, by linarith⟩))
  · exact Or.inr (Or.inr (Or.inr ((Rectangle.contains_iff _ _ _ _ _ _).mpr
      ⟨by linarith, by linarith, by linarith, by linarith⟩)))

/-- A contained point lies in at least one of the `Subdivide` quadrants. -/
theorem contains_cover {b : Rectangle} {p : Vector2D} (h : b.Contains p) :
    (Quadtree.Subdivide b).1.Contains p ∨ (Quadtree.Subdivide b).2.1.Contains p ∨
    (Quadtree.Subdivide b).2.2.1.Contains p ∨ (Quadtree.Subdivide b).2.2.2.Contains p := by
  obtain ⟨cx, cy, w, ht, px, py, hr, hp, a1, a2, a3, a4⟩ := Rectangle.contains_finite h
  subst hr hp
  exact subdivide_covers cx cy w ht px py a1 a2 a3 a4

theorem insertNew_true {p : Vector2D} {i : Nat} {qb : Rectangle}
    (h : qb.Contains p) : insertNew p i qb = (.leaf qb [i], true) := by
  simp [insertNew, h]

theorem insertNew_false {p : Vector2D} {i : Nat} {qb : Rectangle}
    (h : ¬ qb.Contains p) : insertNew p i qb = (.leaf qb [], false) := by
  simp [insertNew, h]

/-- `insertNew` is exactly `Insert` on a freshly created empty child. -/
theorem insertNew_eq_Insert (A : Nat → MovementComponent) (i : Nat) (qb : Rectangle) :
    insertNew (A i).Position i qb = Quadtree.Insert A i (.leaf qb []) := by
  by_cases h : qb.Contains (A i).Position <;>
    simp [insertNew, Quadtree.Insert, h, capacity]

/-- A position outside the node's boundary is rejected with the tree
untouched (the containment guard is the first statement of `Insert`). -/
theorem Insert_outside (A : Nat → MovementComponent) (i : Nat) (t : Quadtree)
    (h : ¬ t.Boundary.Contains (A i).Position) : t.Insert A i = (t, false) := by
  cases t <;> simp [Quadtree.Insert, Quadtree.Boundary] at h ⊢ <;> simp [h]

/-- `Insert` never changes the node's own boundary. -/
theorem Insert_Boundary (A : Nat → MovementComponent) (i : Nat) (t : Quadtree) :
    ((t.Insert A i).1).Boundary = t.Boundary := by
  cases t with
  | leaf b comps =>
    by_cases hc : b.Contains (A i).Position
    · by_cases hlen : comps.length < capacity
      · simp [Quadtree.Insert, hc, hlen, Quadtree.Boundary]
      · simp only [Quadtree.Insert, if_neg (not_not_intro hc), if_neg hlen]
        by_cases h1 : (Quadtree.Subdivide b).1.Contains (A i).Position
        · simp [insertNew_true h1, Quadtree.Boundary]
        · simp only [insertNew_false h1]
          by_cases h2 : (Quadtree.Subdivide b).2.1.Contains (A i).Position
          · simp [insertNew_false h1, insertNew_true h2, Quadtree.Boundary]
          · simp only [insertNew_false h2]
            by_cases h3 : (Quadtree.Subdivide b).2.2.1.Contains (A i).Position
            · simp [insertNew_false h1, insertNew_false h2, insertNew_true h3, Quadtree.Boundary]
            · by_cases h4 : (Quadtree.Subdivide b).2.2.2.Contains (A i).Position
              · simp [insertNew_false h1, insertNew_false h2, insertNew_false h3,
                  insertNew_true h4, Quadtree.Boundary]
              · simp [insertNew_false h1, insertNew_false h2, insertNew_false h3,
                  insertNew_false h4, Quadtree.Boundary]
    · simp [Insert_outside A i (.leaf b comps) (by simpa [Quadtree.Boundary] using hc)]
  | node b comps nw ne sw se =>
    by_cases hc : b.Contains (A i).Position
    · by_cases hlen : comps.length < capacity
      · simp [Quadtree.Insert, hc, hlen, Quadtree.Boundary]
      · simp only [Quadtree.Insert, if_neg (not_not_intro hc), if_neg hlen]
        by_cases b1 : (nw.Insert A i).2
        · simp [b1, Quadtree.Boundary]
        · simp only [b1, Bool.false_eq_true, if_false]
          by_cases b2 : (ne.Insert A i).2
          · simp [b2, Quadtree.Boundary]
          · simp only [b2, Bool.false_eq_true, if_false]
            by_cases b3 : (sw.Insert A i).2
            · simp [b3, Quadtree.Boundary]
            · simp [b3, Quadtree.Boundary]
    · simp [Insert_outside A i (.node b comps nw ne sw se)
        (by simpa [Quadtree.Boundary] using hc)]

/-- A failed insert is atomic: whenever `Insert` returns `false` the tree is
returned unchanged — no bucket append, no subdivision, no child mutation. -/
theorem Insert_false_unchanged (A : Nat → MovementComponent) (i : Nat) :
    ∀ t : Quadtree, (t.Insert A i).2 = false → (t.Insert A i).1 = t := by
  intro t
  induction t with
  | leaf b comps =>
    intro h
    by_cases hc : b.Contains (A i).Position
    · by_cases hlen : comps.length < capacity
      · simp [Quadtree.Insert, if_neg (not_not_intro hc), hlen] at h
      · by_cases h1 : (Quadtree.Subdivide b).1.Contains (A i).Position
        · simp [Quadtree.Insert, if_neg (not_not_intro hc), hlen, insertNew_true h1] at h
        · by_cases h2 : (Quadtree.Subdivide b).2.1.Contains (A i).Position
          · simp [Quadtree.Insert, if_neg (not_not_intro hc), hlen,
              insertNew_false h1, insertNew_true h2] at h
          · by_cases h3 : (Quadtree.Subdivide b).2.2.1.Contains (A i).Position
            · simp [Quadtree.Insert, if_neg (not_not_intro hc), hlen,
                insertNew_false h1, insertNew_false h2, insertNew_true h3] at h
            · by_cases h4 : (Quadtree.Subdivide b).2.2.2.Contains (A i).Position
              · simp [Quadtree.Insert, if_neg (not_not_intro hc), hlen,
                  insertNew_false h1, insertNew_false h2, insertNew_false h3,
                  insertNew_true h4] at h
              · rcases contains_cover hc with hcov | hcov | hcov | hcov
                · exact absurd hcov h1
                · exact absurd hcov h2
                · exact absurd hcov h3
                · exact absurd hcov h4
    · rw [Insert_outside A i (.leaf b comps) (by simpa [Quadtree.Boundary] using hc)]
  | node b comps nw ne sw se ihnw ihne ihsw ihse =>
    intro h
    by_cases hc : b.Contains (A i).Position
    · by_cases hlen : comps.length < capacity
      · simp [Quadtree.Insert, if_neg (not_not_intro hc), hlen] at h
      · cases hbnw : (nw.Insert A i).2 with
        | true =>
          simp [Quadtree.Insert, if_neg (not_not_intro hc), hlen, hbnw] at h
        | false =>
          cases hbne : (ne.Insert A i).2 with
          | true =>
            simp [Quadtree.Insert, if_neg (not_not_intro hc), hlen, hbnw, hbne] at h
          | false =>
            cases hbsw : (sw.Insert A i).2 with
            | true =>
              simp [Quadtree.Insert, if_neg (not_not_intro hc), hlen, hbnw, hbne, hbsw] at h
            | false =>
              have hbse : (se.Insert A i).2 = false := by
                simpa [Quadtree.Insert, if_neg (not_not_intro hc), hlen, hbnw, hbne, hbsw]
                  using h
              simp only [Quadtree.Insert, if_neg (not_not_intro hc), if_neg hlen,
                hbnw, hbne, hbsw, Bool.false_eq_true, if_false]
              rw [ihnw hbnw, ihne hbne, ihsw hbsw, ihse hbse]
    · rw [Insert_outside A i (.node b comps nw ne sw se)
        (by simpa [Quadtree.Boundary] using hc)]

/-- On a geometrically well-formed tree, `Insert` succeeds for every position
inside the node's boundary: subdivision quadrants cover the parent, so the
first-containing-child descent always finds a home for the entry. -/
theorem Insert_succeeds (A : Nat → MovementComponent) (i : Nat) :
    ∀ t : Quadtree, t.geomWF → t.Boundary.Contains (A i).Position →
      (t.Insert A i).2 = true := by
  intro t
  induction t with
  | leaf b comps =>
    intro _ hc
    rw [Quadtree.Boundary] at hc
    by_cases hlen : comps.length < capacity
    · simp [Quadtree.Insert, if_neg (not_not_intro hc), hlen]
    · by_cases h1 : (Quadtree.Subdivide b).1.Contains (A i).Position
      · simp [Quadtree.Insert, if_neg (not_not_intro hc), hlen, insertNew_true h1]
      · by_cases h2 : (Quadtree.Subdivide b).2.1.Contains (A i).Position
        · simp [Quadtree.Insert, if_neg (not_not_intro hc), hlen,
            insertNew_false h1, insertNew_true h2]
        · by_cases h3 : (Quadtree.Subdivide b).2.2.1.Contains (A i).Position
          · simp [Quadtree.Insert, if_neg (not_not_intro hc), hlen,
              insertNew_false h1, insertNew_false h2, insertNew_true h3]
          · have h4 : (Quadtree.Subdivide b).2.2.2.Contains (A i).Position := by
              rcases contains_cover hc with hcov | hcov | hcov | hcov
              · exact absurd hcov h1
              · exact absurd hcov h2
              · exact absurd hcov h3
              · exact hcov
            simp [Quadtree.Insert, if_neg (not_not_intro hc), hlen,
              insertNew_false h1, insertNew_false h2, insertNew_false h3,
              insertNew_true h4]
  | node b comps nw ne sw se ihnw ihne ihsw ihse =>
    intro hg hc
    rw [Quadtree.Boundary] at hc
    obtain ⟨⟨hbnw, hbne, hbsw, hbse⟩, gnw, gne, gsw, gse⟩ := hg
    by_cases hlen : comps.length < capacity
    · simp [Quadtree.Insert, if_neg (not_not_intro hc), hlen]
    · by_cases h1 : (Quadtree.Subdivide b).1.Contains (A i).Position
      · have : (nw.Insert A i).2 = true := ihnw gnw (by rw [hbnw]; exact h1)
        simp [Quadtree.Insert, if_neg (not_not_intro hc), hlen, this]
      · have e1 : nw.Insert A i = (nw, false) :=
          Insert_outside A i nw (by rw [hbnw]; exact h1)
        by_cases h2 : (Quadtree.Subdivide b).2.1.Contains (A i).Position
        · have : (ne.Insert A i).2 = true := ihne gne (by rw [hbne]; exact h2)
          simp [Quadtree.Insert, if_neg (not_not_intro hc), hlen, e1, this]
        · have e2 : ne.Insert A i = (ne, false) :=
            Insert_outside A i ne (by rw [hbne]; exact h2)
          by_cases h3 : (Quadtree.Subdivide b).2.2.1.Contains (A i).Position
          · have : (sw.Insert A i).2 = true := ihsw gsw (by rw [hbsw]; exact h3)
            simp [Quadtree.Insert, if_neg (not_not_intro hc), hlen, e1, e2, this]
          · have e3 : sw.Insert A i = (sw, false) :=
              Insert_outside A i sw (by rw [hbsw]; exact h3)
            have h4 : (Quadtree.Subdivide b).2.2.2.Contains (A i).Position := by
              rcases contains_cover hc with hcov | hcov | hcov | hcov
              · exact absurd hcov h1
              · exact absurd hcov h2
              · exact absurd hcov h3
              · exact hcov
            have : (se.Insert A i).2 = true := ihse gse (by rw [hbse]; exact h4)
            simp [Quadtree.Insert, if_neg (not_not_intro hc), hlen, e1, e2, e3, this]

/-- C10: on every geometrically well-formed tree (every tree the code can
build), `Insert` returns `false` exactly when the position lies outside the
node's boundary, and a call that returns `false` leaves the tree completely
unchanged — no bucket entry appended, no subdivision, no child node created. -/
theorem C10_insert_false_iff_outside (A : Nat → MovementComponent) (i : Nat)
    (t : Quadtree) (hg : t.geomWF) :
    ((t.Insert A i).2 = false ↔ ¬ t.Boundary.Contains (A i).Position) ∧
    ((t.Insert A i).2 = false → (t.Insert A i).1 = t) := by
  refine ⟨⟨?_, ?_⟩, Insert_false_unchanged A i t⟩
  · intro hf hc
    rw [Insert_succeeds A i t hg hc] at hf
    exact Bool.noConfusion hf
  · intro hc
    rw [Insert_outside A i t hc]

/-- Witness for `C10_insert_false_iff_outside`: a fresh root over `run`'s
boundary and an agent at `(-1, 0)`, outside the world. -/
theorem C10_insert_false_iff_outside_witness :
    (Quadtree.leaf runBoundary []).geomWF ∧
    ((((Quadtree.leaf runBoundary []).Insert
        (fun _ => ⟨⟨some (-1), some 0⟩, ⟨some 0, some 0⟩, ⟨some 0, some 0⟩⟩) 0).2 = false ↔
      ¬ (Quadtree.leaf runBoundary []).Boundary.Contains
        ((fun _ => (⟨⟨some (-1), some 0⟩, ⟨some 0, some 0⟩, ⟨some 0, some 0⟩⟩ :
          MovementComponent)) 0).Position) ∧
     (((Quadtree.leaf runBoundary []).Insert
        (fun _ => ⟨⟨some (-1), some 0⟩, ⟨some 0, some 0⟩, ⟨some 0, some 0⟩⟩) 0).2 = false →
      ((Quadtree.leaf runBoundary []).Insert
        (fun _ => ⟨⟨some (-1), some 0⟩, ⟨some 0, some 0⟩, ⟨some 0, some 0⟩⟩) 0).1 =
        Quadtree.leaf runBoundary [])) :=
  ⟨trivial,
    C10_insert_false_iff_outside
      (fun _ => ⟨⟨some (-1), some 0⟩, ⟨some 0, some 0⟩, ⟨some 0, some 0⟩⟩) 0
      (Quadtree.leaf runBoundary []) trivial⟩

/-- `Insert` preserves geometric well-formedness: children are only ever
created by `Subdivide` with the quadrant boundaries. -/
theorem geomWF_insert (A : Nat → MovementComponent) (i : Nat) :
    ∀ t : Quadtree, t.geomWF → ((t.Insert A i).1).geomWF := by
  intro t
  induction t with
  | leaf b comps =>
    intro _
    by_cases hc : b.Contains (A i).Position
    · by_cases hlen : comps.length < capacity
      · simp [Quadtree.Insert, if_neg (not_not_intro hc), hlen, Quadtree.geomWF]
      · by_cases h1 : (Quadtree.Subdivide b).1.Contains (A i).Position
        · simp [Quadtree.Insert, if_neg (not_not_intro hc), hlen, insertNew_true h1,
            Quadtree.geomWF, Quadtree.Boundary]
        · by_cases h2 : (Quadtree.Subdivide b).2.1.Contains (A i).Position
          · simp [Quadtree.Insert, if_neg (not_not_intro hc), hlen, insertNew_false h1,
              insertNew_true h2, Quadtree.geomWF, Quadtree.Boundary]
          · by_cases h3 : (Quadtree.Subdivide b).2.2.1.Contains (A i).Position
            · simp [Quadtree.Insert, if_neg (not_not_intro hc), hlen, insertNew_false h1,
                insertNew_false h2, insertNew_true h3, Quadtree.geomWF, Quadtree.Boundary]
            · by_cases h4 : (Quadtree.Subdivide b).2.2.2.Contains (A i).Position
              · simp [Quadtree.Insert, if_neg (not_not_intro hc), hlen, insertNew_false h1,
                  insertNew_false h2, insertNew_false h3, insertNew_true h4,
                  Quadtree.geomWF, Quadtree.Boundary]
              · simp [Quadtree.Insert, if_neg (not_not_intro hc), hlen, insertNew_false h1,
                  insertNew_false h2, insertNew_false h3, insertNew_false h4,
                  Quadtree.geomWF, Quadtree.Boundary]
    · simp [Insert_outside A i (.leaf b comps) (by simpa [Quadtree.Boundary] using hc),
        Quadtree.geomWF]
  | node b comps nw ne sw se ihnw ihne ihsw ihse =>
    intro hg
    obtain ⟨⟨hbnw, hbne, hbsw, hbse⟩, gnw, gne, gsw, gse⟩ := hg
    by_cases hc : b.Contains (A i).Position
    · by_cases hlen : comps.length < capacity
      · simp only [Quadtree.Insert, if_neg (not_not_intro hc), if_pos hlen]
        exact ⟨⟨hbnw, hbne, hbsw, hbse⟩, gnw, gne, gsw, gse⟩
      · cases hb1 : (nw.Insert A i).2 with
        | true =>
          simp only [Quadtree.Insert, if_neg (not_not_intro hc), if_neg hlen, hb1, if_true]
          exact ⟨⟨by rw [Insert_Boundary, hbnw], hbne, hbsw, hbse⟩,
            ihnw gnw, gne, gsw, gse⟩
        | false =>
          cases hb2 : (ne.Insert A i).2 with
          | true =>
            simp only [Quadtree.Insert, if_neg (not_not_intro hc), if_neg hlen, hb1, hb2,
              Bool.false_eq_true, if_false, if_true]
            exact ⟨⟨by rw [Insert_Boundary, hbnw], by rw [Insert_Boundary, hbne], hbsw, hbse⟩,
              ihnw gnw, ihne gne, gsw, gse⟩
          | false =>
            cases hb3 : (sw.Insert A i).2 with
            | true =>
              simp only [Quadtree.Insert, if_neg (not_not_intro hc), if_neg hlen, hb1, hb2,
                hb3, Bool.false_eq_true, if_false, if_true]
              exact ⟨⟨by rw [Insert_Boundary, hbnw], by rw [Insert_Boundary, hbne],
                by rw [Insert_Boundary, hbsw], hbse⟩,
                ihnw gnw, ihne gne, ihsw gsw, gse⟩
            | false =>
              simp only [Quadtree.Insert, if_neg (not_not_intro hc), if_neg hlen, hb1, hb2,
                hb3, Bool.false_eq_true, if_false]
              exact ⟨⟨by rw [Insert_Boundary, hbnw], by rw [Insert_Boundary, hbne],
                by rw [Insert_Boundary, hbsw], by rw [Insert_Boundary, hbse]⟩,
                ihnw gnw, ihne gne, ihsw gsw, ihse gse⟩
    · simp only [Insert_outside A i (.node b comps nw ne sw se)
        (by simpa [Quadtree.Boundary] using hc)]
      exact ⟨⟨hbnw, hbne, hbsw, hbse⟩, gnw, gne, gsw, gse⟩

/-- `Insert` keeps every bucket within `capacity`: an append only happens
under the explicit room check, and new children start with at most one
entry. -/
theorem bucketsLE_insert (A : Nat → MovementComponent) (i : Nat) :
    ∀ t : Quadtree, t.bucketsLE → ((t.Insert A i).1).bucketsLE := by
  intro t
  induction t with
  | leaf b comps =>
    intro hb
    rw [Quadtree.bucketsLE] at hb
    by_cases hc : b.Contains (A i).Position
    · by_cases hlen : comps.length < capacity
      · simp only [Quadtree.Insert, if_neg (not_not_intro hc), if_pos hlen]
        rw [Quadtree.bucketsLE]
        simp only [List.length_append, List.length_singleton]
        omega
      · by_cases h1 : (Quadtree.Subdivide b).1.Contains (A i).Position
        · simp only [Quadtree.Insert, if_neg (not_not_intro hc), if_neg hlen,
            insertNew_true h1, if_true]
          exact ⟨hb, by simp [Quadtree.bucketsLE, capacity], by simp [Quadtree.bucketsLE],
            by simp [Quadtree.bucketsLE], by simp [Quadtree.bucketsLE]⟩
        · by_cases h2 : (Quadtree.Subdivide b).2.1.Contains (A i).Position
          · simp only [Quadtree.Insert, if_neg (not_not_intro hc), if_neg hlen,
              insertNew_false h1, insertNew_true h2, Bool.false_eq_true, if_false, if_true]
            exact ⟨hb, by simp [Quadtree.bucketsLE], by simp [Quadtree.bucketsLE, capacity],
              by simp [Quadtree.bucketsLE], by simp [Quadtree.bucketsLE]⟩
          · by_cases h3 : (Quadtree.Subdivide b).2.2.1.Contains (A i).Position
            · simp only [Quadtree.Insert, if_neg (not_not_intro hc), if_neg hlen,
                insertNew_false h1, insertNew_false h2, insertNew_true h3,
                Bool.false_eq_true, if_false, if_true]
              exact ⟨hb, by simp [Quadtree.bucketsLE], by simp [Quadtree.bucketsLE],
                by simp [Quadtree.bucketsLE, capacity], by simp [Quadtree.bucketsLE]⟩
            · by_cases h4 : (Quadtree.Subdivide b).2.2.2.Contains (A i).Position
              · simp only [Quadtree.Insert, if_neg (not_not_intro hc), if_neg hlen,
                  insertNew_false h1, insertNew_false h2, insertNew_false h3,
                  insertNew_true h4, Bool.false_eq_true, if_false, if_true]
                exact ⟨hb, by simp [Quadtree.bucketsLE], by simp [Quadtree.bucketsLE],
                  by simp [Quadtree.bucketsLE], by simp [Quadtree.bucketsLE, capacity]⟩
              · simp only [Quadtree.Insert, if_neg (not_not_intro hc), if_neg hlen,
                  insertNew_false h1, insertNew_false h2, insertNew_false h3,
                  insertNew_false h4, Bool.false_eq_true, if_false]
                exact ⟨hb, by simp [Quadtree.bucketsLE], by simp [Quadtree.bucketsLE],
                  by simp [Quadtree.bucketsLE], by simp [Quadtree.bucketsLE]⟩
    · simp only [Insert_outside A i (.leaf b comps) (by simpa [Quadtree.Boundary] using hc)]
      rw [Quadtree.bucketsLE]
      exact hb
  | node b comps nw ne sw se ihnw ihne ihsw ihse =>
    intro hb
    obtain ⟨hlen0, bnw, bne, bsw, bse⟩ := hb
    by_cases hc : b.Contains (A i).Position
    · by_cases hlen : comps.length < capacity
      · simp only [Quadtree.Insert, if_neg (not_not_intro hc), if_pos hlen]
        exact ⟨by simpa using hlen, bnw, bne, bsw, bse⟩
      · cases hb1 : (nw.Insert A i).2 with
        | true =>
          simp only [Quadtree.Insert, if_neg (not_not_intro hc), if_neg hlen, hb1, if_true]
          exact ⟨hlen0, ihnw bnw, bne, bsw, bse⟩
        | false =>
          cases hb2 : (ne.Insert A i).2 with
          | true =>
            simp only [Quadtree.Insert, if_neg (not_not_intro hc), if_neg hlen, hb1, hb2,
              Bool.false_eq_true, if_false, if_true]
            exact ⟨hlen0, ihnw bnw, ihne bne, bsw, bse⟩
          | false =>
            cases hb3 : (sw.Insert A i).2 with
            | true =>
              simp only [Quadtree.Insert, if_neg (not_not_intro hc), if_neg hlen, hb1, hb2,
                hb3, Bool.false_eq_true, if_false, if_true]
              exact ⟨hlen0, ihnw bnw, ihne bne, ihsw bsw, bse⟩
            | false =>
              simp only [Quadtree.Insert, if_neg (not_not_intro hc), if_neg hlen, hb1, hb2,
                hb3, Bool.false_eq_true, if_false]
              exact ⟨hlen0, ihnw bnw, ihne bne, ihsw bsw, ihse bse⟩
    · simp only [Insert_outside A i (.node b comps nw ne sw se)
        (by simpa [Quadtree.Boundary] using hc)]
      exact ⟨hlen0, bnw, bne, bsw, bse⟩

theorem append_singleton_perm (a : Nat) (l : List Nat) : List.Perm (l ++ [a]) (a :: l) := by
  simpa using @List.perm_middle Nat a l []

/-- A successful insert adds exactly the new index to the stored entries, as
a permutation of consing it onto the old entry list. -/
theorem elems_insert (A : Nat → MovementComponent) (i : Nat) :
    ∀ t : Quadtree, (t.Insert A i).2 = true →
      List.Perm ((t.Insert A i).1).elems (i :: t.elems) := by
  intro t
  induction t with
  | leaf b comps =>
    intro htrue
    by_cases hc : b.Contains (A i).Position
    · by_cases hlen : comps.length < capacity
      · simp only [Quadtree.Insert, if_neg (not_not_intro hc), if_pos hlen,
          Quadtree.elems]
        exact append_singleton_perm i comps
      · by_cases h1 : (Quadtree.Subdivide b).1.Contains (A i).Position
        · simp only [Quadtree.Insert, if_neg (not_not_intro hc), if_neg hlen,
            insertNew_true h1, if_true, Quadtree.elems, List.append_nil]
          exact append_singleton_perm i comps
        · by_cases h2 : (Quadtree.Subdivide b).2.1.Contains (A i).Position
          · simp only [Quadtree.Insert, if_neg (not_not_intro hc), if_neg hlen,
              insertNew_false h1, insertNew_true h2, Bool.false_eq_true, if_false, if_true,
              Quadtree.elems, List.append_nil, List.nil_append]
            exact append_singleton_perm i comps
          · by_cases h3 : (Quadtree.Subdivide b).2.2.1.Contains (A i).Position
            · simp only [Quadtree.Insert, if_neg (not_not_intro hc), if_neg hlen,
                insertNew_false h1, insertNew_false h2, insertNew_true h3,
                Bool.false_eq_true, if_false, if_true,
                Quadtree.elems, List.append_nil, List.nil_append]
              exact append_singleton_perm i comps
            · by_cases h4 : (Quadtree.Subdivide b).2.2.2.Contains (A i).Position
              · simp only [Quadtree.Insert, if_neg (not_not_intro hc), if_neg hlen,
                  insertNew_false h1, insertNew_false h2, insertNew_false h3,
                  insertNew_true h4, Bool.false_eq_true, if_false, if_true,
                  Quadtree.elems, List.append_nil, List.nil_append]
                exact append_singleton_perm i comps
              · simp [Quadtree.Insert, if_neg (not_not_intro hc), hlen,
                  insertNew_false h1, insertNew_false h2, insertNew_false h3,
                  insertNew_false h4] at htrue
    · rw [Insert_outside A i (.leaf b comps)
        (by simpa [Quadtree.Boundary] using hc)] at htrue
      exact Bool.noConfusion htrue
  | node b comps nw ne sw se ihnw ihne ihsw ihse =>
    intro htrue
    by_cases hc : b.Contains (A i).Position
    · by_cases hlen : comps.length < capacity
      · simp only [Quadtree.Insert, if_neg (not_not_intro hc), if_pos hlen, Quadtree.elems]
        rw [List.append_assoc]
        exact @List.perm_middle Nat i comps _
      · cases hb1 : (nw.Insert A i).2 with
        | true =>
          simp only [Quadtree.Insert, if_neg (not_not_intro hc), if_neg hlen, hb1, if_true,
            Quadtree.elems]
          have inner := (ihnw hb1).append_right (ne.elems ++ (sw.elems ++ se.elems))
          exact (List.Perm.append_left comps inner).trans (@List.perm_middle Nat i comps _)
        | false =>
          have enw := Insert_false_unchanged A i nw hb1
          cases hb2 : (ne.Insert A i).2 with
          | true =>
            simp only [Quadtree.Insert, if_neg (not_not_intro hc), if_neg hlen, hb1, hb2,
              Bool.false_eq_true, if_false, if_true, Quadtree.elems, enw]
            have inner := (ihne hb2).append_right (sw.elems ++ se.elems)
            have lvl2 :=
              (List.Perm.append_left nw.elems inner).trans (@List.perm_middle Nat i nw.elems _)
            exact (List.Perm.append_left comps lvl2).trans (@List.perm_middle Nat i comps _)
          | false =>
            have ene := Insert_false_unchanged A i ne hb2
            cases hb3 : (sw.Insert A i).2 with
            | true =>
              simp only [Quadtree.Insert, if_neg (not_not_intro hc), if_neg hlen, hb1, hb2,
                hb3, Bool.false_eq_true, if_false, if_true, Quadtree.elems, enw, ene]
              have inner := (ihsw hb3).append_right se.elems
              have lvl2 :=
                (List.Perm.append_left ne.elems inner).trans (@List.perm_middle Nat i ne.elems _)
              have lvl3 :=
                (List.Perm.append_left nw.elems lvl2).trans (@List.perm_middle Nat i nw.elems _)
              exact (List.Perm.append_left comps lvl3).trans (@List.perm_middle Nat i comps _)
            | false =>
              have esw := Insert_false_unchanged A i sw hb3
              have hb4 : (se.Insert A i).2 = true := by
                simpa [Quadtree.Insert, if_neg (not_not_intro hc), hlen, hb1, hb2, hb3]
                  using htrue
              simp only [Quadtree.Insert, if_neg (not_not_intro hc), if_neg hlen, hb1, hb2,
                hb3, Bool.false_eq_true, if_false, Quadtree.elems, enw, ene, esw]
              have inner := ihse hb4
              have lvl2 :=
                (List.Perm.append_left sw.elems inner).trans (@List.perm_middle Nat i sw.elems _)
              have lvl3 :=
                (List.Perm.append_left ne.elems lvl2).trans (@List.perm_middle Nat i ne.elems _)
              have lvl4 :=
                (List.Perm.append_left nw.elems lvl3).trans (@List.perm_middle Nat i nw.elems _)
              exact (List.Perm.append_left comps lvl4).trans (@List.perm_middle Nat i comps _)
    · rw [Insert_outside A i (.node b comps nw ne sw se)
        (by simpa [Quadtree.Boundary] using hc)] at htrue
      exact Bool.noConfusion htrue

/-- `Insert` with a position inside the boundary preserves entry
well-formedness: every stored entry stays inside its subtree's boundary. -/
theorem entriesWF_insert (A : Nat → MovementComponent) (i : Nat) :
    ∀ t : Quadtree, t.entriesWF A → t.Boundary.Contains (A i).Position →
      ((t.Insert A i).1).entriesWF A := by
  intro t
  induction t with
  | leaf b comps =>
    intro hwf hc
    rw [Quadtree.Boundary] at hc
    rw [Quadtree.entriesWF] at hwf
    by_cases hlen : comps.length < capacity
    · simp only [Quadtree.Insert, if_neg (not_not_intro hc), if_pos hlen]
      rw [Quadtree.entriesWF]
      intro j hj
      rcases List.mem_append.mp hj with hj | hj
      · exact hwf j hj
      · have := List.mem_singleton.mp hj
        subst this
        exact hc
    · have hleafWF : ∀ qb : Rectangle, ∀ l : List Nat,
          (∀ j ∈ l, qb.Contains (A j).Position) → (Quadtree.leaf qb l).entriesWF A := by
        intro qb l h
        rw [Quadtree.entriesWF]
        exact h
      have hmem : ∀ j, j ∈ comps ++ ([i] ++ ([] ++ ([] ++ ([] : List Nat)))) →
          b.Contains (A j).Position := by
        intro j hj
        simp only [List.append_nil, List.mem_append, List.mem_singleton] at hj
        rcases hj with hj | rfl
        · exact hwf j hj
        · exact hc
      have hmem' : ∀ pre1 pre2 pre3 : List Nat, ∀ post1 post2 post3 : List Nat,
          True := fun _ _ _ _ _ _ => trivial
      by_cases h1 : (Quadtree.Subdivide b).1.Contains (A i).Position
      · simp only [Quadtree.Insert, if_neg (not_not_intro hc), if_neg hlen,
          insertNew_true h1, if_true]
        rw [Quadtree.entriesWF]
        refine ⟨?_, hleafWF _ _ ?_, hleafWF _ _ (by simp), hleafWF _ _ (by simp),
          hleafWF _ _ (by simp)⟩
        · intro j hj
          simp only [Quadtree.elems, List.append_nil, List.mem_append,
            List.mem_singleton] at hj
          rcases hj with hj | rfl
          · exact hwf j hj
          · exact hc
        · intro j hj
          have := List.mem_singleton.mp hj
          subst this
          exact h1
      · by_cases h2 : (Quadtree.Subdivide b).2.1.Contains (A i).Position
        · simp only [Quadtree.Insert, if_neg (not_not_intro hc), if_neg hlen,
            insertNew_false h1, insertNew_true h2, Bool.false_eq_true, if_false, if_true]
          rw [Quadtree.entriesWF]
          refine ⟨?_, hleafWF _ _ (by simp), hleafWF _ _ ?_, hleafWF _ _ (by simp),
            hleafWF _ _ (by simp)⟩
          · intro j hj
            simp only [Quadtree.elems, List.append_nil, List.nil_append, List.mem_append,
              List.mem_singleton] at hj
            rcases hj with hj | rfl
            · exact hwf j hj
            · exact hc
          · intro j hj
            have := List.mem_singleton.mp hj
            subst this
            exact h2
        · by_cases h3 : (Quadtree.Subdivide b).2.2.1.Contains (A i).Position
          · simp only [Quadtree.Insert, if_neg (not_not_intro hc), if_neg hlen,
              insertNew_false h1, insertNew_false h2, insertNew_true h3,
              Bool.false_eq_true, if_false, if_true]
            rw [Quadtree.entriesWF]
            refine ⟨?_, hleafWF _ _ (by simp), hleafWF _ _ (by simp), hleafWF _ _ ?_,
              hleafWF _ _ (by simp)⟩
            · intro j hj
              simp only [Quadtree.elems, List.append_nil, List.nil_append, List.mem_append,
                List.mem_singleton] at hj
              rcases hj with hj | rfl
              · exact hwf j hj
              · exact hc
            · intro j hj
              have := List.mem_singleton.mp hj
              subst this
              exact h3
          · by_cases h4 : (Quadtree.Subdivide b).2.2.2.Contains (A i).Position
            · simp only [Quadtree.Insert, if_neg (not_not_intro hc), if_neg hlen,
                insertNew_false h1, insertNew_false h2, insertNew_false h3,
                insertNew_true h4, Bool.false_eq_true, if_false, if_true]
              rw [Quadtree.entriesWF]
              refine ⟨?_, hleafWF _ _ (by simp), hleafWF _ _ (by simp),
                hleafWF _ _ (by simp), hleafWF _ _ ?_⟩
              · intro j hj
                simp only [Quadtree.elems, List.append_nil, List.nil_append, List.mem_append,
                  List.mem_singleton] at hj
                rcases hj with hj | rfl
                · exact hwf j hj
                · exact hc
              · intro j hj
                have := List.mem_singleton.mp hj
                subst this
                exact h4
            · simp only [Quadtree.Insert, if_neg (not_not_intro hc), if_neg hlen,
                insertNew_false h1, insertNew_false h2, insertNew_false h3,
                insertNew_false h4, Bool.false_eq_true, if_false]
              rw [Quadtree.entriesWF]
              refine ⟨?_, hleafWF _ _ (by simp), hleafWF _ _ (by simp),
                hleafWF _ _ (by simp), hleafWF _ _ (by simp)⟩
              intro j hj
              simp only [Quadtree.elems, List.append_nil, List.nil_append,
                List.mem_append] at hj
              exact hwf j hj
  | node b comps nw ne sw se ihnw ihne ihsw ihse =>
    intro hwf hc
    rw [Quadtree.Boundary] at hc
    have ⟨h0, wnw, wne, wsw, wse⟩ := hwf
    have h0' : ∀ j, j ∈ comps ∨ j ∈ nw.elems ∨ j ∈ ne.elems ∨ j ∈ sw.elems ∨ j ∈ se.elems →
        b.Contains (A j).Position := by
      intro j hj
      apply h0
      simp only [Quadtree.elems, List.mem_append]
      exact hj
    by_cases hlen : comps.length < capacity
    · simp only [Quadtree.Insert, if_neg (not_not_intro hc), if_pos hlen]
      rw [Quadtree.entriesWF]
      refine ⟨?_, wnw, wne, wsw, wse⟩
      intro j hj
      simp only [Quadtree.elems, List.mem_append, List.mem_singleton] at hj
      rcases hj with (hj | rfl) | hj
      · exact h0' j (Or.inl hj)
      · exact hc
      · exact h0' j (Or.inr hj)
    · cases hb1 : (nw.Insert A i).2 with
      | true =>
        have hnwC : nw.Boundary.Contains (A i).Position := by
          by_contra hno
          rw [Insert_outside A i nw hno] at hb1
          exact Bool.noConfusion hb1
        simp only [Quadtree.Insert, if_neg (not_not_intro hc), if_neg hlen, hb1, if_true]
        rw [Quadtree.entriesWF]
        refine ⟨?_, ihnw wnw hnwC, wne, wsw, wse⟩
        intro j hj
        simp only [Quadtree.elems, List.mem_append] at hj
        rcases hj with hj | hj | hj
        · exact h0' j (Or.inl hj)
        · rcases List.mem_cons.mp ((elems_insert A i nw hb1).mem_iff.mp hj) with rfl | hj'
          · exact hc
          · exact h0' j (Or.inr (Or.inl hj'))
        · exact h0' j (Or.inr (Or.inr hj))
      | false =>
        have enw := Insert_false_unchanged A i nw hb1
        cases hb2 : (ne.Insert A i).2 with
        | true =>
          have hneC : ne.Boundary.Contains (A i).Position := by
            by_contra hno
            rw [Insert_outside A i ne hno] at hb2
            exact Bool.noConfusion hb2
          simp only [Quadtree.Insert, if_neg (not_not_intro hc), if_neg hlen, hb1, hb2,
            Bool.false_eq_true, if_false, if_true, enw]
          rw [Quadtree.entriesWF]
          refine ⟨?_, wnw, ihne wne hneC, wsw, wse⟩
          intro j hj
          simp only [Quadtree.elems, List.mem_append] at hj
          rcases hj with hj | hj | hj | hj
          · exact h0' j (Or.inl hj)
          · exact h0' j (Or.inr (Or.inl hj))
          · rcases List.mem_cons.mp ((elems_insert A i ne hb2).mem_iff.mp hj) with rfl | hj'
            · exact hc
            · exact h0' j (Or.inr (Or.inr (Or.inl hj')))
          · exact h0' j (Or.inr (Or.inr (Or.inr hj)))
        | false =>
          have ene := Insert_false_unchanged A i ne hb2
          cases hb3 : (sw.Insert A i).2 with
          | true =>
            have hswC : sw.Boundary.Contains (A i).Position := by
              by_contra hno
              rw [Insert_outside A i sw hno] at hb3
              exact Bool.noConfusion hb3
            simp only [Quadtree.Insert, if_neg (not_not_intro hc), if_neg hlen, hb1, hb2,
              hb3, Bool.false_eq_true, if_false, if_true, enw, ene]
            rw [Quadtree.entriesWF]
            refine ⟨?_, wnw, wne, ihsw wsw hswC, wse⟩
            intro j hj
            simp only [Quadtree.elems, List.mem_append] at hj
            rcases hj with hj | hj | hj | hj | hj
            · exact h0' j (Or.inl hj)
            · exact h0' j (Or.inr (Or.inl hj))
            · exact h0' j (Or.inr (Or.inr (Or.inl hj)))
            · rcases List.mem_cons.mp ((elems_insert A i sw hb3).mem_iff.mp hj) with rfl | hj'
              · exact hc
              · exact h0' j (Or.inr (Or.inr (Or.inr (Or.inl hj'))))
            · exact h0' j (Or.inr (Or.inr (Or.inr (Or.inr hj))))
          | false =>
            have esw := Insert_false_unchanged A i sw hb3
            cases hb4 : (se.Insert A i).2 with
            | true =>
              have hseC : se.Boundary.Contains (A i).Position := by
                by_contra hno
                rw [Insert_outside A i se hno] at hb4
                exact Bool.noConfusion hb4
              simp only [Quadtree.Insert, if_neg (not_not_intro hc), if_neg hlen, hb1, hb2,
                hb3, Bool.false_eq_true, if_false, enw, ene, esw]
              rw [Quadtree.entriesWF]
              refine ⟨?_, wnw, wne, wsw, ihse wse hseC⟩
              intro j hj
              simp only [Quadtree.elems, List.mem_append] at hj
              rcases hj with hj | hj | hj | hj | hj
              · exact h0' j (Or.inl hj)
              · exact h0' j (Or.inr (Or.inl hj))
              · exact h0' j (Or.inr (Or.inr (Or.inl hj)))
              · exact h0' j (Or.inr (Or.inr (Or.inr (Or.inl hj))))
              · rcases List.mem_cons.mp ((elems_insert A i se hb4).mem_iff.mp hj)
                  with rfl | hj'
                · exact hc
                · exact h0' j (Or.inr (Or.inr (Or.inr (Or.inr hj'))))
            | false =>
              have ese := Insert_false_unchanged A i se hb4
              simp only [Quadtree.Insert, if_neg (not_not_intro hc), if_neg hlen, hb1, hb2,
                hb3, Bool.false_eq_true, if_false, enw, ene, esw, ese]
              exact hwf

/-- On an entry-well-formed tree, `Query` returns exactly the stored entries
whose position lies in the query rectangle, appended to the accumulator in
traversal order: the boundary-intersection prune never drops a match because
a pruned subtree's entries all sit inside its boundary, which misses the
query rectangle. -/
theorem Query_eq_filter (A : Nat → MovementComponent) (R : Rectangle) :
    ∀ t : Quadtree, t.entriesWF A → ∀ found : List Nat,
      t.Query A R found =
        found ++ t.elems.filter (fun j => decide (R.Contains (A j).Position)) := by
  intro t
  induction t with
  | leaf b comps =>
    intro hwf found
    rw [Quadtree.entriesWF] at hwf
    by_cases hint : b.Intersects R
    · simp only [Quadtree.Query, if_neg (not_not_intro hint), Quadtree.elems]
    · have hnil : comps.filter (fun j => decide (R.Contains (A j).Position)) = [] := by
        apply List.filter_eq_nil.mpr
        intro j hj
        simp only [decide_eq_true_eq]
        intro hR
        exact hint (Rectangle.intersects_of_common (hwf j hj) hR)
      simp only [Quadtree.Query, if_pos hint, Quadtree.elems, hnil, List.append_nil]
  | node b comps nw ne sw se ihnw ihne ihsw ihse =>
    intro hwf found
    have ⟨h0, wnw, wne, wsw, wse⟩ := hwf
    by_cases hint : b.Intersects R
    · simp only [Quadtree.Query, if_neg (not_not_intro hint)]
      rw [ihnw wnw, ihne wne, ihsw wsw, ihse wse]
      simp only [Quadtree.elems, List.filter_append, List.append_assoc]
    · have hnil : (Quadtree.elems (.node b comps nw ne sw se)).filter
          (fun j => decide (R.Contains (A j).Position)) = [] := by
        apply List.filter_eq_nil.mpr
        intro j hj
        simp only [decide_eq_true_eq]
        intro hR
        exact hint (Rectangle.intersects_of_common (h0 j hj) hR)
      simp only [Quadtree.Query, if_pos hint, hnil, List.append_nil]

/-- Folding `Insert` over a list of agent indices whose positions all lie in
the root boundary preserves both well-formedness predicates and stores
exactly the inserted indices (every insert succeeds). -/
theorem build_props (A : Nat → MovementComponent) :
    ∀ (L : List Nat) (t : Quadtree), t.geomWF → t.entriesWF A →
      (∀ i ∈ L, t.Boundary.Contains (A i).Position) →
      (L.foldl (fun t i => (t.Insert A i).1) t).geomWF ∧
      (L.foldl (fun t i => (t.Insert A i).1) t).entriesWF A ∧
      List.Perm ((L.foldl (fun t i => (t.Insert A i).1) t).elems) (L ++ t.elems) := by
  intro L
  induction L with
  | nil =>
    intro t hg hw _
    exact ⟨hg, hw, by simp⟩
  | cons l ls ih =>
    intro t hg hw hcont
    have hcl : t.Boundary.Contains (A l).Position := hcont l (List.mem_cons_self l ls)
    have hsucc := Insert_succeeds A l t hg hcl
    have hg1 := geomWF_insert A l t hg
    have hw1 := entriesWF_insert A l t hw hcl
    have hcont1 : ∀ i ∈ ls, ((t.Insert A l).1).Boundary.Contains (A i).Position := by
      intro i hi
      rw [Insert_Boundary A l t]
      exact hcont i (List.mem_cons_of_mem l hi)
    obtain ⟨g2, w2, p2⟩ := ih ((t.Insert A l).1) hg1 hw1 hcont1
    simp only [List.foldl_cons]
    refine ⟨g2, w2, ?_⟩
    exact p2.trans ((List.Perm.append_left ls (elems_insert A l t hsucc)).trans
      (@List.perm_middle Nat l ls t.elems))

/-- C1: for every population whose positions all lie inside the root
boundary, all of which are inserted by the per-tick build, and for every
query rectangle, `Quadtree.Query` returns exactly the inserted agents whose
position lies inside the rectangle — a permutation of (hence equal as a set
to) the brute-force scan over the inserted list. -/
theorem C1_query_matches_bruteforce (A : Nat → MovementComponent)
    (boundary : Rectangle) (L : List Nat) (R : Rectangle)
    (hcont : ∀ i ∈ L, boundary.Contains (A i).Position) :
    List.Perm ((buildQuadtree boundary A L).Query A R [])
      (L.filter (fun j => decide (R.Contains (A j).Position))) := by
  have hg : (Quadtree.leaf boundary []).geomWF := by
    rw [Quadtree.geomWF]
    trivial
  have hw : (Quadtree.leaf boundary []).entriesWF A := by
    rw [Quadtree.entriesWF]
    intro j hj
    exact absurd hj (List.not_mem_nil j)
  have hcont' : ∀ i ∈ L, (Quadtree.leaf boundary []).Boundary.Contains (A i).Position := by
    intro i hi
    rw [Quadtree.Boundary]
    exact hcont i hi
  obtain ⟨g, w, p⟩ := build_props A L (.leaf boundary []) hg hw hcont'
  rw [buildQuadtree, Query_eq_filter A R _ w []]
  simp only [List.nil_append]
  have p' : List.Perm
      ((L.foldl (fun (t : Quadtree) i => (t.Insert A i).1) (Quadtree.leaf boundary [])).elems)
      L := by
    simpa [Quadtree.elems] using p
  exact List.Perm.filter _ p'

/-- Witness for `C1_query_matches_bruteforce`: the two separated agents under
`run`'s boundary, queried with agent 0's neighborhood rectangle. -/
theorem C1_query_matches_bruteforce_witness :
    (∀ i ∈ [0, 1], runBoundary.Contains ((agentsSeparated i).Position)) ∧
    List.Perm ((buildQuadtree runBoundary agentsSeparated [0, 1]).Query agentsSeparated
        ⟨⟨some 100, some 100⟩, some 75, some 75⟩ [])
      (([0, 1] : List Nat).filter
        (fun j => decide ((Rectangle.mk ⟨some 100, some 100⟩ (some 75) (some 75)).Contains
          (agentsSeparated j).Position))) := by
  have hcont : ∀ i ∈ [0, 1], runBoundary.Contains ((agentsSeparated i).Position) := by
    intro i hi
    rcases List.mem_cons.mp hi with rfl | hi
    · norm_num [runBoundary, Rectangle.Contains, agentsSeparated, Flt.le, Flt.add, Flt.sub,
        Flt.div, WindowWidth, WindowHeight]
    · rcases List.mem_singleton.mp hi with rfl
      norm_num [runBoundary, Rectangle.Contains, agentsSeparated, Flt.le, Flt.add, Flt.sub,
        Flt.div, WindowWidth, WindowHeight]
  exact ⟨hcont, C1_query_matches_bruteforce agentsSeparated runBoundary [0, 1]
    ⟨⟨some 100, some 100⟩, some 75, some 75⟩ hcont⟩

/-- C9: `Insert` terminates on every call.  The fueled mirror of the
recursion completes (returns `some`, never exhausting fuel) with any fuel
exceeding the tree's depth, for every tree state, every agent array and
every position — in particular for arbitrarily many agents sharing one exact
position, since the bound depends only on the existing tree: the recursion
descends the finite tree and freshly created children are handled without
further descent.  `Quadtree.Insert` itself is a total structurally recursive
function, so the per-tick build loop runs to completion. -/
theorem C9_insert_fuel_terminates (A : Nat → MovementComponent) (i : Nat) :
    ∀ (t : Quadtree) (fuel : Nat), t.depth < fuel →
      Quadtree.InsertFuel A i fuel t = some (t.Insert A i) := by
  intro t
  induction t with
  | leaf b comps =>
    intro fuel hf
    cases fuel with
    | zero => exact absurd hf (Nat.not_lt_zero _)
    | succ f =>
      by_cases hc : b.Contains (A i).Position
      · by_cases hlen : comps.length < capacity
        · simp [Quadtree.InsertFuel, Quadtree.Insert, if_neg (not_not_intro hc), hlen]
        · by_cases h1 : (Quadtree.Subdivide b).1.Contains (A i).Position
          · simp [Quadtree.InsertFuel, Quadtree.Insert, if_neg (not_not_intro hc), hlen,
              insertNew_true h1]
          · by_cases h2 : (Quadtree.Subdivide b).2.1.Contains (A i).Position
            · simp [Quadtree.InsertFuel, Quadtree.Insert, if_neg (not_not_intro hc), hlen,
                insertNew_false h1, insertNew_true h2]
            · by_cases h3 : (Quadtree.Subdivide b).2.2.1.Contains (A i).Position
              · simp [Quadtree.InsertFuel, Quadtree.Insert, if_neg (not_not_intro hc), hlen,
                  insertNew_false h1, insertNew_false h2, insertNew_true h3]
              · by_cases h4 : (Quadtree.Subdivide b).2.2.2.Contains (A i).Position
                · simp [Quadtree.InsertFuel, Quadtree.Insert, if_neg (not_not_intro hc), hlen,
                    insertNew_false h1, insertNew_false h2, insertNew_false h3,
                    insertNew_true h4]
                · simp [Quadtree.InsertFuel, Quadtree.Insert, if_neg (not_not_intro hc), hlen,
                    insertNew_false h1, insertNew_false h2, insertNew_false h3,
                    insertNew_false h4]
      · simp [Quadtree.InsertFuel, Quadtree.Insert, if_pos hc]
  | node b comps nw ne sw se ihnw ihne ihsw ihse =>
    intro fuel hf
    cases fuel with
    | zero => exact absurd hf (Nat.not_lt_zero _)
    | succ f =>
      have hM : max (max nw.depth ne.depth) (max sw.depth se.depth) < f := by
        rw [Quadtree.depth] at hf
        omega
      have hnw := ihnw f (lt_of_le_of_lt (le_trans (le_max_left _ _) (le_max_left _ _)) hM)
      have hne := ihne f (lt_of_le_of_lt (le_trans (le_max_right _ _) (le_max_left _ _)) hM)
      have hsw := ihsw f (lt_of_le_of_lt (le_trans (le_max_left _ _) (le_max_right _ _)) hM)
      have hse := ihse f (lt_of_le_of_lt (le_trans (le_max_right _ _) (le_max_right _ _)) hM)
      by_cases hc : b.Contains (A i).Position
      · by_cases hlen : comps.length < capacity
        · simp [Quadtree.InsertFuel, Quadtree.Insert, if_neg (not_not_intro hc), hlen]
        · cases hb1 : (nw.Insert A i).2 with
          | true =>
            simp [Quadtree.InsertFuel, Quadtree.Insert, if_neg (not_not_intro hc), hlen,
              hnw, hb1]
          | false =>
            cases hb2 : (ne.Insert A i).2 with
            | true =>
              simp [Quadtree.InsertFuel, Quadtree.Insert, if_neg (not_not_intro hc), hlen,
                hnw, hne, hb1, hb2]
            | false =>
              cases hb3 : (sw.Insert A i).2 with
              | true =>
                simp [Quadtree.InsertFuel, Quadtree.Insert, if_neg (not_not_intro hc), hlen,
                  hnw, hne, hsw, hb1, hb2, hb3]
              | false =>
                simp [Quadtree.InsertFuel, Quadtree.Insert, if_neg (not_not_intro hc), hlen,
                  hnw, hne, hsw, hse, hb1, hb2, hb3]
      · simp [Quadtree.InsertFuel, Quadtree.Insert, if_pos hc]

/-- Witness for `C9_insert_fuel_terminates`: a fresh root with one unit of
fuel. -/
theorem C9_insert_fuel_terminates_witness :
    (Quadtree.leaf runBoundary []).depth < 1 ∧
    Quadtree.InsertFuel agentsCoincident 0 1 (Quadtree.leaf runBoundary []) =
      some ((Quadtree.leaf runBoundary []).Insert agentsCoincident 0) :=
  ⟨by simp [Quadtree.depth],
    C9_insert_fuel_terminates agentsCoincident 0 (Quadtree.leaf runBoundary []) 1
      (by simp [Quadtree.depth])⟩

/-- C6: (1) every node's bucket holds at most `capacity` entries in every
tree the per-tick build produces; (2) inserting into a full undivided node
subdivides it — four children each covering a quarter of its area — keeps
the existing bucket entries where they are (no redistribution), and pushes
only the new entry into the first child among NW, NE, SW, SE (in that fixed
order) whose boundary contains its position; (3) inserting into a full
already-divided node does not subdivide again, keeps the bucket, and pushes
the new entry into the first child (same fixed order) whose boundary
contains it, leaving the other children untouched. -/
theorem C6_bucket_capacity_lazy_subdivision (A : Nat → MovementComponent) (i : Nat) :
    (∀ (boundary : Rectangle) (L : List Nat), (buildQuadtree boundary A L).bucketsLE) ∧
    (∀ (b : Rectangle) (comps : List Nat), capacity ≤ comps.length →
      b.Contains (A i).Position →
      Quadtree.Insert A i (.leaf b comps) =
        (if (Quadtree.Subdivide b).1.Contains (A i).Position then
          (.node b comps (.leaf (Quadtree.Subdivide b).1 [i])
            (.leaf (Quadtree.Subdivide b).2.1 []) (.leaf (Quadtree.Subdivide b).2.2.1 [])
            (.leaf (Quadtree.Subdivide b).2.2.2 []), true)
        else if (Quadtree.Subdivide b).2.1.Contains (A i).Position then
          (.node b comps (.leaf (Quadtree.Subdivide b).1 [])
            (.leaf (Quadtree.Subdivide b).2.1 [i]) (.leaf (Quadtree.Subdivide b).2.2.1 [])
            (.leaf (Quadtree.Subdivide b).2.2.2 []), true)
        else if (Quadtree.Subdivide b).2.2.1.Contains (A i).Position then
          (.node b comps (.leaf (Quadtree.Subdivide b).1 [])
            (.leaf (Quadtree.Subdivide b).2.1 []) (.leaf (Quadtree.Subdivide b).2.2.1 [i])
            (.leaf (Quadtree.Subdivide b).2.2.2 []), true)
        else
          (.node b comps (.leaf (Quadtree.Subdivide b).1 [])
            (.leaf (Quadtree.Subdivide b).2.1 []) (.leaf (Quadtree.Subdivide b).2.2.1 [])
            (.leaf (Quadtree.Subdivide b).2.2.2 [i]), true))) ∧
    (∀ (b : Rectangle) (comps : List Nat) (nw ne sw se : Quadtree),
      (Quadtree.node b comps nw ne sw se).geomWF → capacity ≤ comps.length →
      b.Contains (A i).Position →
      Quadtree.Insert A i (.node b comps nw ne sw se) =
        (if nw.Boundary.Contains (A i).Position then
          (.node b comps (nw.Insert A i).1 ne sw se, true)
        else if ne.Boundary.Contains (A i).Position then
          (.node b comps nw (ne.Insert A i).1 sw se, true)
        else if sw.Boundary.Contains (A i).Position then
          (.node b comps nw ne (sw.Insert A i).1 se, true)
        else
          (.node b comps nw ne sw (se.Insert A i).1, true))) := by
  refine ⟨?_, ?_, ?_⟩
  · intro boundary L
    have step : ∀ (M : List Nat) (t : Quadtree), t.bucketsLE →
        (M.foldl (fun (t : Quadtree) j => (t.Insert A j).1) t).bucketsLE := by
      intro M
      induction M with
      | nil => intro t hb; exact hb
      | cons m ms ih =>
        intro t hb
        simp only [List.foldl_cons]
        exact ih _ (bucketsLE_insert A m t hb)
    apply step
    rw [Quadtree.bucketsLE]
    simp [capacity]
  · intro b comps hcap hc
    have hlen : ¬ comps.length < capacity := Nat.not_lt.mpr hcap
    by_cases h1 : (Quadtree.Subdivide b).1.Contains (A i).Position
    · simp only [Quadtree.Insert, if_neg (not_not_intro hc), if_neg hlen,
        insertNew_true h1, if_true, if_pos h1]
    · by_cases h2 : (Quadtree.Subdivide b).2.1.Contains (A i).Position
      · simp only [Quadtree.Insert, if_neg (not_not_intro hc), if_neg hlen,
          insertNew_false h1, insertNew_true h2, Bool.false_eq_true, if_false, if_true,
          if_neg h1, if_pos h2]
      · by_cases h3 : (Quadtree.Subdivide b).2.2.1.Contains (A i).Position
        · simp only [Quadtree.Insert, if_neg (not_not_intro hc), if_neg hlen,
            insertNew_false h1, insertNew_false h2, insertNew_true h3,
            Bool.false_eq_true, if_false, if_true, if_neg h1, if_neg h2, if_pos h3]
        · have h4 : (Quadtree.Subdivide b).2.2.2.Contains (A i).Position := by
            rcases contains_cover hc with hcov | hcov | hcov | hcov
            · exact absurd hcov h1
            · exact absurd hcov h2
            · exact absurd hcov h3
            · exact hcov
          simp only [Quadtree.Insert, if_neg (not_not_intro hc), if_neg hlen,
            insertNew_false h1, insertNew_false h2, insertNew_false h3, insertNew_true h4,
            Bool.false_eq_true, if_false, if_true, if_neg h1, if_neg h2, if_neg h3]
  · intro b comps nw ne sw se hg hcap hc
    obtain ⟨⟨hbnw, hbne, hbsw, hbse⟩, gnw, gne, gsw, gse⟩ := hg
    have hlen : ¬ comps.length < capacity := Nat.not_lt.mpr hcap
    by_cases h1 : nw.Boundary.Contains (A i).Position
    · have hb1 : (nw.Insert A i).2 = true := Insert_succeeds A i nw gnw h1
      simp only [Quadtree.Insert, if_neg (not_not_intro hc), if_neg hlen, hb1, if_true,
        if_pos h1]
    · have e1 : nw.Insert A i = (nw, false) := Insert_outside A i nw h1
      by_cases h2 : ne.Boundary.Contains (A i).Position
      · have hb2 : (ne.Insert A i).2 = true := Insert_succeeds A i ne gne h2
        simp only [Quadtree.Insert, if_neg (not_not_intro hc), if_neg hlen, e1, hb2,
          Bool.false_eq_true, if_false, if_true, if_neg h1, if_pos h2]
      · have e2 : ne.Insert A i = (ne, false) := Insert_outside A i ne h2
        by_cases h3 : sw.Boundary.Contains (A i).Position
        · have hb3 : (sw.Insert A i).2 = true := Insert_succeeds A i sw gsw h3
          simp only [Quadtree.Insert, if_neg (not_not_intro hc), if_neg hlen, e1, e2, hb3,
            Bool.false_eq_true, if_false, if_true, if_neg h1, if_neg h2, if_pos h3]
        · have e3 : sw.Insert A i = (sw, false) := Insert_outside A i sw h3
          have h4 : se.Boundary.Contains (A i).Position := by
            rcases contains_cover hc with hcov | hcov | hcov | hcov
            · exact absurd hcov (hbnw ▸ h1)
            · exact absurd hcov (hbne ▸ h2)
            · exact absurd hcov (hbsw ▸ h3)
            · rw [hbse]; exact hcov
          have hb4 : (se.Insert A i).2 = true := Insert_succeeds A i se gse h4
          simp only [Quadtree.Insert, if_neg (not_not_intro hc), if_neg hlen, e1, e2, e3,
            Bool.false_eq_true, if_false, if_neg h1, if_neg h2, if_neg h3]
          rw [← hb4]

/-- Witness for `C6_bucket_capacity_lazy_subdivision`: a full root bucket
(16 entries) over `run`'s boundary receiving agent 0 of the separated
population. -/
theorem C6_bucket_capacity_lazy_subdivision_witness :
    capacity ≤ (List.replicate 16 5).length ∧
    runBoundary.Contains (agentsSeparated 0).Position ∧
    Quadtree.Insert agentsSeparated 0 (.leaf runBoundary (List.replicate 16 5)) =
      (if (Quadtree.Subdivide runBoundary).1.Contains (agentsSeparated 0).Position then
        (.node runBoundary (List.replicate 16 5)
          (.leaf (Quadtree.Subdivide runBoundary).1 [0])
          (.leaf (Quadtree.Subdivide runBoundary).2.1 [])
          (.leaf (Quadtree.Subdivide runBoundary).2.2.1 [])
          (.leaf (Quadtree.Subdivide runBoundary).2.2.2 []), true)
      else if (Quadtree.Subdivide runBoundary).2.1.Contains (agentsSeparated 0).Position then
        (.node runBoundary (List.replicate 16 5)
          (.leaf (Quadtree.Subdivide runBoundary).1 [])
          (.leaf (Quadtree.Subdivide runBoundary).2.1 [0])
          (.leaf (Quadtree.Subdivide runBoundary).2.2.1 [])
          (.leaf (Quadtree.Subdivide runBoundary).2.2.2 []), true)
      else if (Quadtree.Subdivide runBoundary).2.2.1.Contains (agentsSeparated 0).Position then
        (.node runBoundary (List.replicate 16 5)
          (.leaf (Quadtree.Subdivide runBoundary).1 [])
          (.leaf (Quadtree.Subdivide runBoundary).2.1 [])
          (.leaf (Quadtree.Subdivide runBoundary).2.2.1 [0])
          (.leaf (Quadtree.Subdivide runBoundary).2.2.2 []), true)
      else
        (.node runBoundary (List.replicate 16 5)
          (.leaf (Quadtree.Subdivide runBoundary).1 [])
          (.leaf (Quadtree.Subdivide runBoundary).2.1 [])
          (.leaf (Quadtree.Subdivide runBoundary).2.2.1 [])
          (.leaf (Quadtree.Subdivide runBoundary).2.2.2 [0]), true)) := by
  have hcap : capacity ≤ (List.replicate 16 5).length := by simp [capacity]
  have hc : runBoundary.Contains (agentsSeparated 0).Position := by
    norm_num [runBoundary, Rectangle.Contains, agentsSeparated, Flt.le, Flt.add, Flt.sub,
      Flt.div, WindowWidth, WindowHeight]
  exact ⟨hcap, hc,
    (C6_bucket_capacity_lazy_subdivision agentsSeparated 0).2.1 runBoundary
      (List.replicate 16 5) hcap hc⟩

end
